import Mathlib

/-
  Verification of the geoflow-rs bulk-loading core against its
  natural-language specification.

  Shallow embedding conventions:
  * Rust `String`/`&str` values are modelled as `List Char`; the character
    classes of the sanitization regexes and `to_lowercase` are modelled on
    their ASCII behaviour (the identifiers handled by the loader are ASCII).
  * Rust `i32` arithmetic is modelled by `Int` (the loader's counters stay
    far from the i32 boundaries, so wrap-around is not modelled).
  * Fallible Rust code returning `Result<T, BulkDataError>` is modelled with
    `Except BErr`.
  * Async streams are modelled by the finite list of messages observed on
    the mpsc channel, in FIFO order; external effects (file reads, HTTP
    responses, copy-stream sends) are supplied as explicit oracles.
-/

namespace Geoflow

/-- Valid scalar values below the surrogate range round-trip through
`Char.ofNat`. -/
theorem toNat_ofNat_small (m : Nat) (h : m < 55296) : (Char.ofNat m).toNat = m := by
  have hv : Char.isValidCharNat m := Or.inl h
  rw [Char.ofNat, dif_pos hv]
  simp [Char.ofNatAux, Char.toNat, UInt32.toNat, BitVec.toNat_ofNatLt]

/-- Model of `BulkDataError` (src/bulk_loading/error.rs), restricted to the
variants exercised by the claims: `Generic`, `SQL` and `ArcGis`.  The status
code of `ArcGis` is kept as its display string. -/
inductive BErr where
  | generic (msg : List Char)
  | sql (msg : List Char)
  | arcgis (query : List Char) (status : List Char)
deriving DecidableEq, Repr

/-- Model of `impl Display for BulkDataError` (error.rs lines 28-52).  Note
the source labels the `SQL` variant with the text "Polars Error". -/
def BErr.display : BErr → List Char
  | .generic m => String.toList "Loader Error\n" ++ m
  | .sql m => String.toList "Polars Error\n" ++ m
  | .arcgis q s =>
      String.toList "Error while running query \"" ++ q
        ++ String.toList "\", status: " ++ s

/- ### Identifier sanitization (src/bulk_loading/analyze.rs lines 20-42) -/

/-- Character in the ASCII range `A`-`Z`. -/
def inUpperRange (c : Char) : Bool := decide (65 ≤ c.toNat ∧ c.toNat ≤ 90)

/-- Character in the ASCII range `a`-`z`. -/
def inLowerRange (c : Char) : Bool := decide (97 ≤ c.toNat ∧ c.toNat ≤ 122)

/-- Character in the ASCII range `0`-`9`. -/
def inDigitRange (c : Char) : Bool := decide (48 ≤ c.toNat ∧ c.toNat ≤ 57)

/-- Regex class `[A-Z_]` of `SQL_NAME_REGEX`. -/
def sqlHeadChar (c : Char) : Bool := inUpperRange c || decide (c = '_')

/-- Regex class `[A-Z_0-9]` of `SQL_NAME_REGEX`. -/
def sqlTailChar (c : Char) : Bool := sqlHeadChar c || inDigitRange c

/-- Model of `SQL_NAME_REGEX.is_match`, the fast-path pattern
`[A-Z_][A-Z_0-9]` with 1 to 64 tail characters, anchored on both sides
(analyze.rs line 21).  The regex is built with `Regex::new`, hence it is
case sensitive. -/
def sql_name_match (s : List Char) : Bool :=
  match s with
  | [] => false
  | c :: rest =>
      sqlHeadChar c && rest.all sqlTailChar
        && decide (1 ≤ rest.length ∧ rest.length ≤ 64)

/-- The class `[A-Za-z_]`: the case-insensitive reading of `[A-Z_]`.  Used to
state the spec's claims, which read the fast-path regex case-insensitively. -/
def ciHeadChar (c : Char) : Bool := inUpperRange c || inLowerRange c || decide (c = '_')

/-- The class `[A-Za-z_0-9]`, also the complement of the slow path's
case-insensitive replacement class `[^A-Z_0-9]` (analyze.rs line 27). -/
def isWordChar (c : Char) : Bool := ciHeadChar c || inDigitRange c

/-- Case-insensitive reading of the fast-path pattern, as the spec states
it: `[A-Z_][A-Z_0-9]` with 1 to 64 tail characters, case-insensitively. -/
def ci_sql_name_match (s : List Char) : Bool :=
  match s with
  | [] => false
  | c :: rest =>
      ciHeadChar c && rest.all isWordChar
        && decide (1 ≤ rest.length ∧ rest.length ≤ 64)

/-- The spec's output pattern for sanitized identifiers:
`[A-Za-z_][A-Za-z_0-9]*` anchored on both sides. -/
def sql_ident_match (s : List Char) : Bool :=
  match s with
  | [] => false
  | c :: rest => ciHeadChar c && rest.all isWordChar

/-- Model of `SQL_NAME_CLEAN_REGEX1.replace(name, "")` for the regex
`\..+$` (analyze.rs line 26): delete from the leftmost `.` that is followed
by at least one character and whose whole tail contains no newline (regex
`.` does not match a newline and `$` anchors at the end of the text). -/
def stripDotSuffix : List Char → List Char
  | [] => []
  | c :: rest =>
      if c = '.' ∧ rest ≠ [] ∧ rest.all (fun x => x ≠ '\n') then []
      else c :: stripDotSuffix rest

/-- Model of `SQL_NAME_CLEAN_REGEX2.replace_all(name, "_")` for the
case-insensitive regex `[^A-Z_0-9]` (analyze.rs lines 27-30): every
character outside `[A-Za-z0-9_]` becomes `_`. -/
def replaceNonWord (s : List Char) : List Char :=
  s.map (fun c => if isWordChar c then c else '_')

/-- Model of `SQL_NAME_CLEAN_REGEX3.replace(name, "_$1")` for the regex
`^([0-9])` (analyze.rs line 31): a leading digit gets an underscore
prefixed. -/
def prefixDigitUnderscore : List Char → List Char
  | [] => []
  | c :: rest => if inDigitRange c then '_' :: c :: rest else c :: rest

/-- Single-pass form of `SQL_NAME_CLEAN_REGEX4.replace_all(name, "_")` for
the regex `_{2,}` (analyze.rs line 32): every run of two or more
underscores collapses to one.  `afterUnderscore` records whether the
previously emitted character of the current run was an underscore. -/
def collapseGo (afterUnderscore : Bool) : List Char → List Char
  | [] => []
  | c :: rest =>
      if c = '_' then
        if afterUnderscore then collapseGo true rest
        else '_' :: collapseGo true rest
      else c :: collapseGo false rest

/-- Collapse runs of underscores, starting outside a run. -/
def collapseUnderscore (s : List Char) : List Char := collapseGo false s

/-- ASCII model of `str::to_lowercase`, character-wise (identifiers handled
by the loader are ASCII, where Rust lowercases `A`-`Z` to `a`-`z`). -/
def toLowerList (s : List Char) : List Char := s.map Char.toLower

/-- Model of `clean_sql_name` (analyze.rs lines 24-42). -/
def clean_sql_name (s : List Char) : Option (List Char) :=
  let n1 := stripDotSuffix s
  let n2 := replaceNonWord n1
  let n3 := prefixDigitUnderscore n2
  let n4 := collapseUnderscore n3
  if n4 = [] then none else some (toLowerList n4)

/-- Whether a string contains two adjacent underscores. -/
def hasDoubleUnderscore : List Char → Bool
  | a :: b :: rest => (decide (a = '_') && decide (b = '_')) || hasDoubleUnderscore (b :: rest)
  | _ => false

/-- Model of `ColumnType` (analyze.rs lines 46-65). -/
inductive ColumnType where
  | Text
  | Boolean
  | SmallInt
  | Integer
  | BigInt
  | Number
  | Real
  | DoublePrecision
  | Money
  | Timestamp
  | TimestampWithZone
  | Date
  | Time
  | Interval
  | Geometry
  | Json
  | UUID
  | SmallIntArray
deriving DecidableEq, Repr

/-- Model of `ColumnMetadata` (analyze.rs lines 92-97). -/
structure ColumnMetadata where
  name : List Char
  column_type : ColumnType
deriving DecidableEq, Repr

/-- Model of `ColumnMetadata::new` (analyze.rs lines 100-114): fast path on
the case-sensitive regex, else `clean_sql_name`, failing when the cleaned
name is empty. -/
def ColumnMetadata.new (name : List Char) (column_type : ColumnType) :
    Except BErr ColumnMetadata :=
  if sql_name_match name then .ok ⟨toLowerList name, column_type⟩
  else
    match clean_sql_name name with
    | some column_name => .ok ⟨column_name, column_type⟩
    | none =>
        .error (.generic (String.toList "Column name \"" ++ name
          ++ String.toList "\" was empty after cleaning"))

/-- Model of `Schema` (analyze.rs lines 141-145). -/
structure Schema where
  table_name : List Char
  columns : List ColumnMetadata
deriving DecidableEq, Repr

/-- Model of `Schema::new` (analyze.rs lines 148-162): the table name is
sanitized exactly as a column name is, with a different error message. -/
def Schema.new (table_name : List Char) (columns : List ColumnMetadata) :
    Except BErr Schema :=
  if sql_name_match table_name then .ok ⟨toLowerList table_name, columns⟩
  else
    match clean_sql_name table_name with
    | some cleaned => .ok ⟨cleaned, columns⟩
    | none =>
        .error (.generic (String.toList "Table Name " ++ table_name
          ++ String.toList " was empty after cleaning"))

instance instDecEqExcept {ε α : Type} [DecidableEq ε] [DecidableEq α] :
    DecidableEq (Except ε α)
  | .error a, .error b => decidable_of_iff (a = b) (by simp)
  | .error _, .ok _ => isFalse (by simp)
  | .ok _, .error _ => isFalse (by simp)
  | .ok a, .ok b => decidable_of_iff (a = b) (by simp)

/-- Characters are determined by their scalar value. -/
theorem char_eq_of_toNat_eq {a b : Char} (h : a.toNat = b.toNat) : a = b :=
  Char.ext (UInt32.ext h)

/-- Scalar-value description of core `Char.toLower` (the ASCII case map). -/
theorem toLower_toNat (c : Char) :
    (Char.toLower c).toNat =
      if 65 ≤ c.toNat ∧ c.toNat ≤ 90 then c.toNat + 32 else c.toNat := by
  unfold Char.toLower
  split
  · next h =>
    rw [if_pos ⟨h.1, h.2⟩]
    exact toNat_ofNat_small _ (by omega)
  · next h =>
    rw [if_neg (fun hc => h ⟨hc.1, hc.2⟩)]

theorem eq_underscore_iff_toNat (c : Char) : c = '_' ↔ c.toNat = 95 :=
  ⟨fun h => by subst h; rfl, fun h => char_eq_of_toNat_eq (by rw [h]; rfl)⟩

theorem ciHeadChar_iff (c : Char) :
    ciHeadChar c = true ↔
      (65 ≤ c.toNat ∧ c.toNat ≤ 90) ∨ (97 ≤ c.toNat ∧ c.toNat ≤ 122) ∨ c.toNat = 95 := by
  simp [ciHeadChar, inUpperRange, inLowerRange, eq_underscore_iff_toNat, or_assoc]

theorem isWordChar_iff (c : Char) :
    isWordChar c = true ↔
      (65 ≤ c.toNat ∧ c.toNat ≤ 90) ∨ (97 ≤ c.toNat ∧ c.toNat ≤ 122) ∨ c.toNat = 95
        ∨ (48 ≤ c.toNat ∧ c.toNat ≤ 57) := by
  simp [isWordChar, inDigitRange, ciHeadChar_iff, or_assoc]

theorem sqlHeadChar_iff (c : Char) :
    sqlHeadChar c = true ↔ (65 ≤ c.toNat ∧ c.toNat ≤ 90) ∨ c.toNat = 95 := by
  simp [sqlHeadChar, inUpperRange, eq_underscore_iff_toNat]

theorem sqlTailChar_iff (c : Char) :
    sqlTailChar c = true ↔
      (65 ≤ c.toNat ∧ c.toNat ≤ 90) ∨ c.toNat = 95 ∨ (48 ≤ c.toNat ∧ c.toNat ≤ 57) := by
  simp [sqlTailChar, inDigitRange, sqlHeadChar_iff, or_assoc]

theorem isWordChar_toLower (c : Char) (h : isWordChar c = true) :
    isWordChar (Char.toLower c) = true := by
  rw [isWordChar_iff] at h ⊢
  rw [toLower_toNat]
  split <;> omega

theorem ciHeadChar_toLower (c : Char) (h : ciHeadChar c = true) :
    ciHeadChar (Char.toLower c) = true := by
  rw [ciHeadChar_iff] at h ⊢
  rw [toLower_toNat]
  split <;> omega

theorem ciHeadChar_of_word_nondigit (c : Char) (hw : isWordChar c = true)
    (hd : inDigitRange c = false) : ciHeadChar c = true := by
  rw [isWordChar_iff] at hw
  rw [ciHeadChar_iff]
  simp [inDigitRange] at hd
  omega

theorem toLower_underscore_iff (c : Char) : Char.toLower c = '_' ↔ c = '_' := by
  rw [eq_underscore_iff_toNat, eq_underscore_iff_toNat, toLower_toNat]
  split <;> omega

/- Pipeline lemmas for the slow path. -/

theorem stripDotSuffix_id (s : List Char) (h : ∀ c ∈ s, c ≠ '.') :
    stripDotSuffix s = s := by
  induction s with
  | nil => rfl
  | cons c rest ih =>
      rw [stripDotSuffix, if_neg, ih (fun x hx => h x (List.mem_cons_of_mem _ hx))]
      intro hc
      exact h c (List.mem_cons_self _ _) hc.1

theorem replaceNonWord_id (s : List Char) (h : ∀ c ∈ s, isWordChar c = true) :
    replaceNonWord s = s := by
  induction s with
  | nil => rfl
  | cons c rest ih =>
      rw [replaceNonWord, List.map_cons, if_pos (h c (List.mem_cons_self _ _))]
      rw [replaceNonWord] at ih
      rw [ih (fun x hx => h x (List.mem_cons_of_mem _ hx))]

theorem replaceNonWord_mem (s : List Char) (x : Char) (hx : x ∈ replaceNonWord s) :
    isWordChar x = true := by
  rw [replaceNonWord, List.mem_map] at hx
  obtain ⟨c, _, hc⟩ := hx
  by_cases hw : isWordChar c = true
  · rw [if_pos hw] at hc; rw [← hc]; exact hw
  · rw [if_neg hw] at hc; rw [← hc]; decide

theorem collapseGo_mem (s : List Char) : ∀ b x, x ∈ collapseGo b s → x ∈ s := by
  induction s with
  | nil => intro b x hx; cases hx
  | cons c rest ih =>
      intro b x hx
      rw [collapseGo] at hx
      by_cases hc : c = '_'
      · rw [if_pos hc] at hx
        cases b with
        | true => exact List.mem_cons_of_mem _ (ih _ _ (by simpa using hx))
        | false =>
            rw [if_neg (by simp)] at hx
            rcases List.mem_cons.mp hx with h1 | h2
            · exact h1 ▸ (hc ▸ List.mem_cons_self _ _)
            · exact List.mem_cons_of_mem _ (ih _ _ h2)
      · rw [if_neg hc] at hx
        rcases List.mem_cons.mp hx with h1 | h2
        · exact h1 ▸ List.mem_cons_self _ _
        · exact List.mem_cons_of_mem _ (ih _ _ h2)

theorem collapseGo_true_no_underscore_head (s : List Char) :
    ∀ t, collapseGo true s ≠ '_' :: t := by
  induction s with
  | nil => intro t h; cases h
  | cons c rest ih =>
      intro t h
      rw [collapseGo] at h
      by_cases hc : c = '_'
      · rw [if_pos hc, if_pos rfl] at h
        exact ih t h
      · rw [if_neg hc] at h
        exact hc (List.cons_eq_cons.mp h).1

theorem hasDoubleUnderscore_collapseGo (s : List Char) :
    ∀ b, hasDoubleUnderscore (collapseGo b s) = false := by
  induction s with
  | nil => intro b; rfl
  | cons c rest ih =>
      intro b
      rw [collapseGo]
      by_cases hc : c = '_'
      · rw [if_pos hc]
        cases b with
        | true => exact ih true
        | false =>
            rw [if_neg (by simp)]
            rcases h : collapseGo true rest with _ | ⟨d, t⟩
            · rfl
            · have hd : ¬(d = '_') := fun hd => collapseGo_true_no_underscore_head rest t (hd ▸ h)
              have := ih true
              rw [h] at this
              simp [hasDoubleUnderscore, hd, this]
      · rw [if_neg hc]
        rcases h : collapseGo false rest with _ | ⟨d, t⟩
        · rfl
        · have := ih false
          rw [h] at this
          simp [hasDoubleUnderscore, hc, this]

theorem hasDoubleUnderscore_tail (a : Char) (l : List Char)
    (h : hasDoubleUnderscore (a :: l) = false) : hasDoubleUnderscore l = false := by
  cases l with
  | nil => rfl
  | cons b t =>
      rw [hasDoubleUnderscore, Bool.or_eq_false_iff] at h
      exact h.2

theorem collapseGo_eq_self (s : List Char) (h : hasDoubleUnderscore s = false) :
    collapseGo false s = s ∧ ∀ d t, s = d :: t → d ≠ '_' → collapseGo true s = s := by
  induction s with
  | nil => exact ⟨rfl, fun d t hdt => by cases hdt⟩
  | cons c rest ih =>
      have hrest := hasDoubleUnderscore_tail c rest h
      obtain ⟨ih1, ih2⟩ := ih hrest
      constructor
      · rw [collapseGo]
        by_cases hc : c = '_'
        · rw [if_pos hc, if_neg (by simp)]
          cases rest with
          | nil => rw [hc]; rfl
          | cons d t =>
              have hd : ¬(d = '_') := by
                intro hd
                rw [hasDoubleUnderscore, hc, hd] at h
                simp at h
              rw [ih2 d t rfl hd, hc]
        · rw [if_neg hc, ih1]
      · intro d t hdt hd
        rw [List.cons_eq_cons] at hdt
        rw [collapseGo, if_neg (hdt.1 ▸ hd), ih1]

theorem hasDoubleUnderscore_toLowerList :
    ∀ s : List Char, hasDoubleUnderscore s = false →
      hasDoubleUnderscore (toLowerList s) = false
  | [] => fun _ => rfl
  | [_] => fun _ => rfl
  | a :: b :: rest => fun h => by
      rw [hasDoubleUnderscore, Bool.or_eq_false_iff] at h
      have ih := hasDoubleUnderscore_toLowerList (b :: rest) h.2
      rw [toLowerList, List.map_cons, List.map_cons, hasDoubleUnderscore,
        Bool.or_eq_false_iff]
      refine ⟨?_, by simpa [toLowerList] using ih⟩
      rw [Bool.and_eq_false_iff] at h ⊢
      rcases h.1 with h1 | h1
      · exact Or.inl (by simp [toLower_underscore_iff, decide_eq_false_iff_not] at h1 ⊢; exact h1)
      · exact Or.inr (by simp [toLower_underscore_iff, decide_eq_false_iff_not] at h1 ⊢; exact h1)

theorem collapseGo_false_cons (d : Char) (t : List Char) :
    ∃ u, collapseGo false (d :: t) = d :: u := by
  rw [collapseGo]
  by_cases hd : d = '_'
  · rw [if_pos hd, if_neg (by simp)]
    exact ⟨collapseGo true t, by rw [hd]⟩
  · rw [if_neg hd]
    exact ⟨collapseGo false t, rfl⟩

theorem sqlHeadChar_ciHead (c : Char) (h : sqlHeadChar c = true) : ciHeadChar c = true := by
  rw [sqlHeadChar_iff] at h
  rw [ciHeadChar_iff]
  omega

theorem sqlTailChar_word (c : Char) (h : sqlTailChar c = true) : isWordChar c = true := by
  rw [sqlTailChar_iff] at h
  rw [isWordChar_iff]
  omega

theorem ciHeadChar_word (c : Char) (h : ciHeadChar c = true) : isWordChar c = true := by
  rw [ciHeadChar_iff] at h
  rw [isWordChar_iff]
  omega

theorem ciHeadChar_not_digit (c : Char) (h : ciHeadChar c = true) :
    inDigitRange c = false := by
  rw [ciHeadChar_iff] at h
  simp only [inDigitRange, decide_eq_false_iff_not]
  omega

theorem isWordChar_ne_dot (c : Char) (h : isWordChar c = true) : c ≠ '.' := by
  intro hc
  subst hc
  exact absurd h (by decide)

/-- The lowercased image of a fast-path match fits the spec's identifier
pattern. -/
theorem sql_ident_match_toLower_of_fast (s : List Char) (h : sql_name_match s = true) :
    sql_ident_match (toLowerList s) = true := by
  cases s with
  | nil => cases h
  | cons c rest =>
      rw [sql_name_match, Bool.and_eq_true, Bool.and_eq_true] at h
      obtain ⟨⟨hhead, htail⟩, _⟩ := h
      rw [toLowerList, List.map_cons, sql_ident_match, Bool.and_eq_true]
      refine ⟨ciHeadChar_toLower c (sqlHeadChar_ciHead c hhead), ?_⟩
      rw [List.all_eq_true] at htail ⊢
      intro x hx
      obtain ⟨y, hy, hyx⟩ := List.mem_map.mp hx
      rw [← hyx]
      exact isWordChar_toLower y (sqlTailChar_word y (htail y hy))

/-- Any successful output of the slow path fits the spec's identifier
pattern and has no collapsed underscore run left. -/
theorem clean_sql_name_spec (s out : List Char) (h : clean_sql_name s = some out) :
    sql_ident_match out = true ∧ hasDoubleUnderscore out = false := by
  rw [clean_sql_name] at h
  split at h
  · cases h
  · next hne =>
    have hout : out = toLowerList (collapseUnderscore
        (prefixDigitUnderscore (replaceNonWord (stripDotSuffix s)))) :=
      (Option.some.injEq _ _).mp h.symm
    rcases hn2 : replaceNonWord (stripDotSuffix s) with _ | ⟨c, r⟩
    · rw [collapseUnderscore, hn2] at hne
      exact absurd rfl hne
    · have hword : ∀ x ∈ c :: r, isWordChar x = true := by
        intro x hx
        exact replaceNonWord_mem (stripDotSuffix s) x (hn2 ▸ hx)
      have hbranch : ∃ d t, prefixDigitUnderscore (c :: r) = d :: t ∧
          isWordChar d = true ∧ inDigitRange d = false ∧
          ∀ x ∈ d :: t, isWordChar x = true := by
        rw [prefixDigitUnderscore]
        by_cases hd : inDigitRange c = true
        · rw [if_pos hd]
          refine ⟨'_', c :: r, rfl, by decide, by decide, ?_⟩
          intro x hx
          rcases List.mem_cons.mp hx with h1 | h2
          · rw [h1]; decide
          · exact hword x h2
        · rw [if_neg hd]
          exact ⟨c, r, rfl, hword c (List.mem_cons_self _ _),
            Bool.eq_false_iff.mpr hd, hword⟩
      obtain ⟨d, t, hdt, hdw, hdd, hall⟩ := hbranch
      rw [hn2, hdt] at hout
      obtain ⟨u, hu⟩ := collapseGo_false_cons d t
      rw [collapseUnderscore, hu] at hout
      have humem : ∀ x ∈ d :: u, isWordChar x = true := by
        intro x hx
        exact hall x (collapseGo_mem (d :: t) false x (hu ▸ hx))
      constructor
      · rw [hout, toLowerList, List.map_cons, sql_ident_match, Bool.and_eq_true]
        refine ⟨ciHeadChar_toLower d
          (ciHeadChar_of_word_nondigit d hdw hdd), ?_⟩
        rw [List.all_eq_true]
        intro x hx
        obtain ⟨y, hy, hyx⟩ := List.mem_map.mp hx
        rw [← hyx]
        exact isWordChar_toLower y (humem y (List.mem_cons_of_mem _ hy))
      · rw [hout]
        apply hasDoubleUnderscore_toLowerList
        rw [← hu]
        exact hasDoubleUnderscore_collapseGo (d :: t) false

/-- On a case-insensitive fast-path match without a double underscore the
slow path is the identity followed by lowercasing. -/
theorem clean_sql_name_ci (s : List Char) (hci : ci_sql_name_match s = true)
    (hdu : hasDoubleUnderscore s = false) :
    clean_sql_name s = some (toLowerList s) := by
  cases s with
  | nil => cases hci
  | cons c rest =>
      rw [ci_sql_name_match, Bool.and_eq_true, Bool.and_eq_true] at hci
      obtain ⟨⟨hhead, htail⟩, _⟩ := hci
      rw [List.all_eq_true] at htail
      have hword : ∀ x ∈ c :: rest, isWordChar x = true := by
        intro x hx
        rcases List.mem_cons.mp hx with h1 | h2
        · exact h1 ▸ ciHeadChar_word c hhead
        · exact htail x h2
      have h1 : stripDotSuffix (c :: rest) = c :: rest :=
        stripDotSuffix_id _ (fun x hx => isWordChar_ne_dot x (hword x hx))
      have h2 : replaceNonWord (c :: rest) = c :: rest := replaceNonWord_id _ hword
      have h3 : prefixDigitUnderscore (c :: rest) = c :: rest := by
        rw [prefixDigitUnderscore, if_neg]
        rw [ciHeadChar_not_digit c hhead]
        simp
      have h4 : collapseUnderscore (c :: rest) = c :: rest :=
        (collapseGo_eq_self (c :: rest) hdu).1
      rw [clean_sql_name, h1, h2, h3, h4, if_neg (by simp)]

/-- C5 (corrected).  The fast-path regex of the source is case sensitive,
so a lowercase match such as "a__b" runs through the slow path, which
collapses the underscore run: the claim fails.  Amended claim: for every
input matching the pattern case-insensitively and containing no double
underscore, sanitization (both ColumnMetadata::new and Schema::new)
succeeds and returns exactly the lowercased input. -/
theorem c5_ci_match_lowercases (s : List Char) (t : ColumnType)
    (cols : List ColumnMetadata) (hci : ci_sql_name_match s = true)
    (hdu : hasDoubleUnderscore s = false) :
    ColumnMetadata.new s t = .ok ⟨toLowerList s, t⟩ ∧
      Schema.new s cols = .ok ⟨toLowerList s, cols⟩ := by
  by_cases hfast : sql_name_match s = true
  · constructor <;> simp [ColumnMetadata.new, Schema.new, hfast]
  · have hclean := clean_sql_name_ci s hci hdu
    constructor <;> simp [ColumnMetadata.new, Schema.new, hfast, hclean]

/-- C5 counterexample: "a__b" matches the claimed pattern case-insensitively
but is sanitized to "a_b", not to its lowercase image "a__b". -/
theorem c5_counterexample :
    ci_sql_name_match (String.toList "a__b") = true ∧
      ColumnMetadata.new (String.toList "a__b") .Text
        = .ok ⟨String.toList "a_b", .Text⟩ ∧
      String.toList "a_b" ≠ toLowerList (String.toList "a__b") :=
  ⟨by decide, by decide, by decide⟩

/-- C5 witness: the amended statement applied to the concrete input
"Col_9". -/
theorem c5_witness :
    ci_sql_name_match (String.toList "Col_9") = true ∧
      hasDoubleUnderscore (String.toList "Col_9") = false ∧
      ColumnMetadata.new (String.toList "Col_9") .Text
        = .ok ⟨toLowerList (String.toList "Col_9"), .Text⟩ :=
  ⟨by decide, by decide,
    (c5_ci_match_lowercases (String.toList "Col_9") .Text [] (by decide) (by decide)).1⟩

/-- C6 (corrected).  An all-uppercase input such as "A__B" passes the fast
path, which lowercases without collapsing underscores, so the sanitized
output can contain a double underscore.  Amended claim: every successful
output matches the identifier pattern, and whenever the input does not
match the case-sensitive fast-path regex the output additionally contains
no double underscore. -/
theorem c6_sanitized_identifier_shape (name : List Char) (t : ColumnType)
    (cols : List ColumnMetadata) (cm : ColumnMetadata) (sch : Schema) :
    (ColumnMetadata.new name t = .ok cm →
      sql_ident_match cm.name = true ∧
        (sql_name_match name = false → hasDoubleUnderscore cm.name = false)) ∧
    (Schema.new name cols = .ok sch →
      sql_ident_match sch.table_name = true ∧
        (sql_name_match name = false → hasDoubleUnderscore sch.table_name = false)) := by
  by_cases hfast : sql_name_match name = true
  · constructor
    · intro h
      rw [ColumnMetadata.new, if_pos hfast] at h
      have : cm = ⟨toLowerList name, t⟩ := by
        cases h
        rfl
      rw [this]
      refine ⟨sql_ident_match_toLower_of_fast name hfast, ?_⟩
      intro hcontra
      rw [hfast] at hcontra
      cases hcontra
    · intro h
      rw [Schema.new, if_pos hfast] at h
      have : sch = ⟨toLowerList name, cols⟩ := by
        cases h
        rfl
      rw [this]
      refine ⟨sql_ident_match_toLower_of_fast name hfast, ?_⟩
      intro hcontra
      rw [hfast] at hcontra
      cases hcontra
  · rcases hc : clean_sql_name name with _ | out
    · constructor
      · intro h
        rw [ColumnMetadata.new, if_neg hfast, hc] at h
        cases h
      · intro h
        rw [Schema.new, if_neg hfast, hc] at h
        cases h
    · have hspec := clean_sql_name_spec name out hc
      constructor
      · intro h
        rw [ColumnMetadata.new, if_neg hfast, hc] at h
        have : cm = ⟨out, t⟩ := by
          cases h
          rfl
        rw [this]
        exact ⟨hspec.1, fun _ => hspec.2⟩
      · intro h
        rw [Schema.new, if_neg hfast, hc] at h
        have : sch = ⟨out, cols⟩ := by
          cases h
          rfl
        rw [this]
        exact ⟨hspec.1, fun _ => hspec.2⟩

/-- C6 counterexample: sanitizing "A__B" succeeds with output "a__b",
which contains a double underscore. -/
theorem c6_counterexample :
    ColumnMetadata.new (String.toList "A__B") .Text
        = .ok ⟨String.toList "a__b", .Text⟩ ∧
      hasDoubleUnderscore (String.toList "a__b") = true :=
  ⟨by decide, by decide⟩

/-- C6 witness: the amended statement applied to the concrete input
"My Col", sanitized through the slow path to "my_col". -/
theorem c6_witness :
    sql_ident_match (String.toList "my_col") = true ∧
      hasDoubleUnderscore (String.toList "my_col") = false := by
  have h := (c6_sanitized_identifier_shape (String.toList "My Col") .Text []
      ⟨String.toList "my_col", .Text⟩ ⟨[], []⟩).1 (by decide)
  exact ⟨h.1, h.2 (by decide)⟩

/- ### CSV encoding (src/bulk_loading/utilities.rs lines 10-19,
     src/bulk_loading/load.rs lines 48-52) -/

/-- The sentinel test of `escape_csv_string`: does the string contain a
double quote, comma, newline or carriage return? -/
def hasCsvSpecial (s : List Char) : Bool :=
  s.any (fun c => decide (c = '"') || decide (c = ',') || decide (c = '\n') || decide (c = '\r'))

/-- Model of `csv_string.replace('\"', "\"\"")`: double every double
quote. -/
def doubleQuotes : List Char → List Char
  | [] => []
  | c :: rest =>
      if c = '"' then '"' :: '"' :: doubleQuotes rest else c :: doubleQuotes rest

/-- Model of `escape_csv_string` (utilities.rs lines 10-19). -/
def escape_csv_string (s : List Char) : List Char :=
  if hasCsvSpecial s then '"' :: (doubleQuotes s ++ ['"']) else s

/-- Model of `csv_iter_to_string` (load.rs lines 48-52): escaped cells
joined by commas, with a trailing newline. -/
def csv_iter_to_string (cells : List (List Char)) : List Char :=
  List.intercalate [','] (cells.map escape_csv_string) ++ ['\n']

/-- Spec-side definition (from the claim's words, not from the source): a
CSV field parser with quote and escape both set to the double quote.  A
quoted field must be terminated by a closing quote; a doubled quote inside
a quoted field denotes one literal double quote. -/
def parse_csv_cell_quoted : List Char → Option (List Char)
  | [] => none
  | c :: rest =>
      if c = '"' then
        match rest with
        | [] => some []
        | d :: rest2 =>
            if d = '"' then (parse_csv_cell_quoted rest2).map (fun t => '"' :: t)
            else none
      else (parse_csv_cell_quoted rest).map (fun t => c :: t)

/-- Spec-side definition: parse one emitted CSV cell; an unquoted cell is
taken verbatim. -/
def parse_csv_cell (s : List Char) : Option (List Char) :=
  match s with
  | [] => some []
  | c :: rest => if c = '"' then parse_csv_cell_quoted rest else some s

theorem parse_quoted_doubleQuotes (s : List Char) :
    parse_csv_cell_quoted (doubleQuotes s ++ ['"']) = some s := by
  induction s with
  | nil => rfl
  | cons c rest ih =>
      by_cases hc : c = '"'
      · subst hc
        rw [doubleQuotes, if_pos rfl, List.cons_append, List.cons_append,
          parse_csv_cell_quoted.eq_def]
        simp [ih]
      · rw [doubleQuotes, if_neg hc, List.cons_append,
          parse_csv_cell_quoted.eq_def]
        simp [hc, ih]

theorem map_id_of_mem {α : Type} (l : List α) (f : α → α) (h : ∀ x ∈ l, f x = x) :
    l.map f = l := by
  induction l with
  | nil => rfl
  | cons a t ih =>
      rw [List.map_cons, h a (List.mem_cons_self _ _),
        ih (fun x hx => h x (List.mem_cons_of_mem _ hx))]

/-- C4 (confirmed).  A row without sentinel characters is emitted as the
plain comma join with a trailing newline; a cell with a sentinel is emitted
quote-wrapped with doubled quotes and round-trips through a CSV field
parse with quote and escape set to the double quote. -/
theorem c4_csv_escape_round_trip (cells : List (List Char)) (cell : List Char) :
    ((∀ x ∈ cells, hasCsvSpecial x = false) →
      csv_iter_to_string cells = List.intercalate [','] cells ++ ['\n']) ∧
    (hasCsvSpecial cell = true →
      escape_csv_string cell = '"' :: (doubleQuotes cell ++ ['"']) ∧
        parse_csv_cell (escape_csv_string cell) = some cell) := by
  constructor
  · intro h
    rw [csv_iter_to_string,
      map_id_of_mem cells escape_csv_string
        (fun x hx => by rw [escape_csv_string, if_neg]; rw [h x hx]; simp)]
  · intro h
    have hesc : escape_csv_string cell = '"' :: (doubleQuotes cell ++ ['"']) := by
      rw [escape_csv_string, if_pos h]
    refine ⟨hesc, ?_⟩
    rw [hesc, parse_csv_cell, if_pos rfl]
    exact parse_quoted_doubleQuotes cell

/-- C4 witness: the theorem applied to the sentinel-free row consisting of
"ab" and "cd", and to the sentinel cell containing a comma and a quote. -/
theorem c4_witness :
    csv_iter_to_string [String.toList "ab", String.toList "cd"]
        = String.toList "ab,cd\n" ∧
      parse_csv_cell (escape_csv_string (String.toList "a,\"b"))
        = some (String.toList "a,\"b") := by
  constructor
  · have h := (c4_csv_escape_round_trip [String.toList "ab", String.toList "cd"]
      []).1 (by decide)
    rw [h]
    decide
  · exact ((c4_csv_escape_round_trip [] (String.toList "a,\"b")).2 (by decide)).2

/- ### Delimited source: spooling and the COPY statement
     (src/bulk_loading/delimited.rs, src/bulk_loading/load.rs lines 19-45) -/

/-- Model of `DelimitedDataOptions` (delimited.rs lines 14-18), keeping the
fields that feed the COPY statement. -/
structure DelimitedDataOptions where
  delimiter : Char
  qualified : Bool
deriving DecidableEq, Repr

/-- Model of the `DataFileOptions::header` implementation for delimited
sources (delimited.rs lines 42-45): always true. -/
def DelimitedDataOptions.header (_ : DelimitedDataOptions) : Bool := true

/-- Model of `CopyOptions` (load.rs lines 19-22). -/
structure CopyOptions where
  table_name : List Char
  columns : List (List Char)

def singleQuoteChar : Char := '\''

/-- Model of `CopyOptions::copy_statement` (load.rs lines 32-45), with the
generic options split into the three format hints it reads. -/
def copy_statement (copy : CopyOptions) (delimiter : Char) (header : Bool)
    (qualified : Bool) : List Char :=
  String.toList "COPY " ++ toLowerList copy.table_name
    ++ String.toList " (" ++ List.intercalate [','] copy.columns
    ++ String.toList ") FROM STDIN WITH (FORMAT csv, DELIMITER "
    ++ [singleQuoteChar, delimiter, singleQuoteChar]
    ++ String.toList ", HEADER "
    ++ String.toList (if header then "true" else "false")
    ++ String.toList ", NULL " ++ [singleQuoteChar, singleQuoteChar]
    ++ (if qualified then
        String.toList ", QUOTE " ++ [singleQuoteChar, '"', singleQuoteChar]
          ++ String.toList ", ESCAPE " ++ [singleQuoteChar, '"', singleQuoteChar]
        else [])
    ++ [')']

/-- Model of `DelimitedDataParser::spool_records` (delimited.rs lines
108-139) on the success path: the file is given as its list of lines (as
produced by the async line reader), and each line is sent verbatim with a
newline appended; no escaping is applied and the header line is not
skipped. -/
def delimited_spool_records : List (List Char) → List (Except BErr (List Char))
  | [] => []
  | line :: rest => .ok (line ++ ['\n']) :: delimited_spool_records rest

/-- C10 (confirmed).  The delimited spooler forwards every line, header
included, verbatim with only a newline appended, and the COPY statement
for delimited options always sets HEADER true, so the server consumes the
forwarded header line. -/
theorem c10_delimited_verbatim_and_header (lines : List (List Char))
    (copy : CopyOptions) (opts : DelimitedDataOptions) :
    delimited_spool_records lines = lines.map (fun l => .ok (l ++ ['\n'])) ∧
      opts.header = true ∧
      (String.toList "HEADER true") <:+:
        copy_statement copy opts.delimiter opts.header opts.qualified := by
  refine ⟨?_, rfl, ?_⟩
  · induction lines with
    | nil => rfl
    | cons l rest ih => rw [delimited_spool_records, List.map_cons, ih]
  · refine ⟨String.toList "COPY " ++ toLowerList copy.table_name
      ++ String.toList " (" ++ List.intercalate [','] copy.columns
      ++ String.toList ") FROM STDIN WITH (FORMAT csv, DELIMITER "
      ++ [singleQuoteChar, opts.delimiter, singleQuoteChar] ++ [',', ' '],
      String.toList ", NULL " ++ [singleQuoteChar, singleQuoteChar]
        ++ (if opts.qualified then
            String.toList ", QUOTE " ++ [singleQuoteChar, '"', singleQuoteChar]
              ++ String.toList ", ESCAPE " ++ [singleQuoteChar, '"', singleQuoteChar]
            else [])
        ++ [')'], ?_⟩
    rw [copy_statement, DelimitedDataOptions.header]
    simp [List.append_assoc]

/- ### REST query retry (src/bulk_loading/arcgis/scraping.rs lines 7,
     113-135) -/

/-- Model of `MAX_RETRY` (scraping.rs line 7). -/
def MAX_RETRY : Nat := 5

/-- Does the error match the `BulkDataError::ArcGis(_, _)` arm of the retry
loop? -/
def BErr.isArcGis : BErr → Bool
  | .arcgis _ _ => true
  | _ => false

/-- The display text of the retry-exhaustion error built by
`loop_until_successful` (scraping.rs lines 121-124), a `Generic` error. -/
def maxRetryMsg : List Char :=
  String.toList "Exceeded max number of retries for a query ("
    ++ String.toList (Nat.repr MAX_RETRY) ++ [')']

/-- Model of the body of `loop_until_successful` (scraping.rs lines
113-135).  `tryQuery i` is the outcome of the i-th attempt (1-based);
`attempts` is the loop counter before the increment at the top of the loop
body. -/
def loop_until_go {α : Type} (tryQuery : Nat → Except BErr α) (attempts : Nat) :
    Except BErr α :=
  if MAX_RETRY < attempts + 1 then .error (.generic maxRetryMsg)
  else
    match tryQuery (attempts + 1) with
    | .error e => if e.isArcGis then loop_until_go tryQuery (attempts + 1) else .error e
    | .ok v => .ok v
termination_by MAX_RETRY + 1 - attempts
decreasing_by omega

/-- Model of `loop_until_successful`: the loop starts with `attempts = 0`. -/
def loop_until_successful {α : Type} (tryQuery : Nat → Except BErr α) :
    Except BErr α :=
  loop_until_go tryQuery 0

theorem loop_go_step {α : Type} (tq : Nat → Except BErr α) (attempts : Nat)
    (h5 : attempts + 1 ≤ MAX_RETRY) (q s : List Char)
    (harc : tq (attempts + 1) = .error (.arcgis q s)) :
    loop_until_go tq attempts = loop_until_go tq (attempts + 1) := by
  rw [loop_until_go, if_neg (by omega), harc]
  rfl

theorem loop_go_stop_ok {α : Type} (tq : Nat → Except BErr α) (attempts : Nat)
    (v : α) (h5 : attempts + 1 ≤ MAX_RETRY) (hok : tq (attempts + 1) = .ok v) :
    loop_until_go tq attempts = .ok v := by
  rw [loop_until_go, if_neg (by omega), hok]

theorem loop_go_stop_err {α : Type} (tq : Nat → Except BErr α) (attempts : Nat)
    (e : BErr) (h5 : attempts + 1 ≤ MAX_RETRY)
    (herr : tq (attempts + 1) = .error e) (hne : e.isArcGis = false) :
    loop_until_go tq attempts = .error e := by
  rw [loop_until_go, if_neg (by omega), herr]
  simp [hne]

theorem loop_go_exhaust {α : Type} (tq : Nat → Except BErr α) (attempts : Nat)
    (h : MAX_RETRY < attempts + 1) :
    loop_until_go tq attempts = .error (.generic maxRetryMsg) := by
  rw [loop_until_go, if_pos h]

/-- C3 (corrected).  The retry loop retries only the ArcGis (REST-specific
HTTP status) error, with an independent budget of 5 attempts: four HTTP
500 responses followed by a success succeed, a sixth consecutive failure
never happens because the budget is exhausted after the fifth, and any
non-ArcGis error surfaces immediately.  However, the failure produced on
exhaustion is not the REST-specific variant as claimed: it is the Generic
variant with the text "Exceeded max number of retries for a query (5)". -/
theorem c3_retry_budget {α : Type} (tq : Nat → Except BErr α) (v : α) (e : BErr) :
    ((∀ i, 1 ≤ i ∧ i ≤ 4 → ∃ q s, tq i = .error (.arcgis q s)) →
      tq 5 = .ok v → loop_until_successful tq = .ok v) ∧
    ((∀ i, 1 ≤ i ∧ i ≤ 6 → ∃ q s, tq i = .error (.arcgis q s)) →
      loop_until_successful tq = .error (.generic maxRetryMsg)) ∧
    (tq 1 = .error e → e.isArcGis = false →
      loop_until_successful tq = .error e) := by
  refine ⟨?_, ?_, ?_⟩
  · intro hfail hok
    obtain ⟨q1, s1, h1⟩ := hfail 1 (by omega)
    obtain ⟨q2, s2, h2⟩ := hfail 2 (by omega)
    obtain ⟨q3, s3, h3⟩ := hfail 3 (by omega)
    obtain ⟨q4, s4, h4⟩ := hfail 4 (by omega)
    rw [loop_until_successful,
      loop_go_step tq 0 (by rw [MAX_RETRY]; omega) q1 s1 h1,
      loop_go_step tq 1 (by rw [MAX_RETRY]; omega) q2 s2 h2,
      loop_go_step tq 2 (by rw [MAX_RETRY]; omega) q3 s3 h3,
      loop_go_step tq 3 (by rw [MAX_RETRY]; omega) q4 s4 h4]
    exact loop_go_stop_ok tq 4 v (by rw [MAX_RETRY]) hok
  · intro hfail
    obtain ⟨q1, s1, h1⟩ := hfail 1 (by omega)
    obtain ⟨q2, s2, h2⟩ := hfail 2 (by omega)
    obtain ⟨q3, s3, h3⟩ := hfail 3 (by omega)
    obtain ⟨q4, s4, h4⟩ := hfail 4 (by omega)
    obtain ⟨q5, s5, h5⟩ := hfail 5 (by omega)
    rw [loop_until_successful,
      loop_go_step tq 0 (by rw [MAX_RETRY]; omega) q1 s1 h1,
      loop_go_step tq 1 (by rw [MAX_RETRY]; omega) q2 s2 h2,
      loop_go_step tq 2 (by rw [MAX_RETRY]; omega) q3 s3 h3,
      loop_go_step tq 3 (by rw [MAX_RETRY]; omega) q4 s4 h4,
      loop_go_step tq 4 (by rw [MAX_RETRY]) q5 s5 h5]
    exact loop_go_exhaust tq 5 (by rw [MAX_RETRY]; omega)
  · intro herr hne
    exact loop_go_stop_err tq 0 e (by rw [MAX_RETRY]; omega) herr hne

/-- A run whose every attempt answers HTTP 500 with the REST-specific
error. -/
def alwaysServerError : Nat → Except BErr Nat :=
  fun _ => .error (.arcgis (String.toList "url/query")
    (String.toList "500 Internal Server Error"))

/-- C3 counterexample: when every attempt fails with the REST-specific
HTTP-status error, the loop's final failure is the Generic
retries-exhausted error, not the REST-specific variant the claim names. -/
theorem c3_counterexample :
    loop_until_successful alwaysServerError = .error (.generic maxRetryMsg) ∧
      ∀ q s, (Except.error (BErr.generic maxRetryMsg) : Except BErr Nat)
        ≠ .error (.arcgis q s) := by
  constructor
  · rw [loop_until_successful,
      loop_go_step alwaysServerError 0 (by rw [MAX_RETRY]; omega) _ _ rfl,
      loop_go_step alwaysServerError 1 (by rw [MAX_RETRY]; omega) _ _ rfl,
      loop_go_step alwaysServerError 2 (by rw [MAX_RETRY]; omega) _ _ rfl,
      loop_go_step alwaysServerError 3 (by rw [MAX_RETRY]; omega) _ _ rfl,
      loop_go_step alwaysServerError 4 (by rw [MAX_RETRY]) _ _ rfl]
    exact loop_go_exhaust alwaysServerError 5 (by rw [MAX_RETRY]; omega)
  · intro q s h
    cases h

/-- A run that answers HTTP 500 four times and then succeeds. -/
def fourFailuresThenOk : Nat → Except BErr Nat :=
  fun i =>
    if i ≤ 4 then
      .error (.arcgis (String.toList "url/query")
        (String.toList "500 Internal Server Error"))
    else .ok 42

/-- A run whose first attempt hits a non-REST-specific (generic) error. -/
def immediateOtherError : Nat → Except BErr Nat :=
  fun _ => .error (.generic (String.toList "bad payload"))

/-- C3 witness: the amended statement applied to the concrete runs. -/
theorem c3_witness :
    loop_until_successful fourFailuresThenOk = .ok 42 ∧
      loop_until_successful alwaysServerError = .error (.generic maxRetryMsg) ∧
      loop_until_successful immediateOtherError
        = .error (.generic (String.toList "bad payload")) := by
  refine ⟨?_, ?_, ?_⟩
  · exact (c3_retry_budget fourFailuresThenOk 42 (.generic [])).1
      (fun i hi => ⟨String.toList "url/query",
        String.toList "500 Internal Server Error",
        by rw [fourFailuresThenOk]; rw [if_pos hi.2]⟩)
      (by rw [fourFailuresThenOk]; rfl)
  · exact (c3_retry_budget alwaysServerError 0 (.generic [])).2.1
      (fun i _ => ⟨String.toList "url/query",
        String.toList "500 Internal Server Error", rfl⟩)
  · exact (c3_retry_budget immediateOtherError 0
      (.generic (String.toList "bad payload"))).2.2 rfl rfl

/- ### Load engine drain loop (src/bulk_loading/load.rs lines 112-150,
     src/bulk_loading/mod.rs lines 117-154) -/

/-- Final state of the modelled copy stream: the lines whose bytes were
sent, whether `finish` committed it, and the message passed to `abort`
when it was aborted. -/
structure CopyOut where
  sent : List (List Char)
  finished : Bool
  abortedWith : Option (List Char)
deriving DecidableEq, Repr

/-- Outcome of a modelled `load_data` run: the returned value and the copy
stream's final state, plus the line printed after awaiting the spooler. -/
structure LoadOutcome where
  result : Except BErr Nat
  copy : CopyOut
  log : List Char
deriving DecidableEq, Repr

/-- Model of the drain loop of `DataLoader::load_data` (load.rs lines
123-135): `msgs` is the FIFO channel content up to closure, `sendFail k`
the outcome of the k-th `copy.send` (`none` = success).  Returns the loop
result together with the lines sent to the copy stream, in order. -/
def drain_loop (sendFail : Nat → Option BErr) :
    List (Except BErr (List Char)) → Nat → Except BErr Unit × List (List Char)
  | [], _ => (.ok (), [])
  | .ok record :: rest, k =>
      match sendFail k with
      | some e => (.error e, [])
      | none =>
          let r := drain_loop sendFail rest (k + 1)
          (r.1, record :: r.2)
  | .error e :: _, _ => (.error e, [])

/-- Model of `DataLoader::load_data` (load.rs lines 114-149) after the copy
stream is opened: drain the channel, await and log the spooler's own
result, then finish or abort the copy stream.  `finishRes` is what
`copy.finish()` would report (the server row count), `abortRes` a failure
of `copy.abort` itself, `spoolResult` the spooler task's value observed
after the drain loop. -/
def load_data (msgs : List (Except BErr (List Char)))
    (sendFail : Nat → Option BErr) (finishRes : Except BErr Nat)
    (abortRes : Option BErr) (spoolResult : Option (List Char)) : LoadOutcome :=
  let r := drain_loop sendFail msgs 0
  let log := match spoolResult with
    | some v => String.toList "SendError\n" ++ v
    | none => String.toList "Finished spool handle successfully"
  match r.1 with
  | .ok _ =>
      match finishRes with
      | .ok count => ⟨.ok count, ⟨r.2, true, none⟩, log⟩
      | .error e => ⟨.error e, ⟨r.2, false, none⟩, log⟩
  | .error e =>
      match abortRes with
      | none => ⟨.error e, ⟨r.2, false, some (BErr.display e)⟩, log⟩
      | some e2 => ⟨.error e2, ⟨r.2, false, some (BErr.display e)⟩, log⟩

theorem drain_loop_all_ok (sendFail : Nat → Option BErr)
    (hsend : ∀ k, sendFail k = none) (lines : List (List Char)) :
    ∀ k, drain_loop sendFail (lines.map .ok) k = (.ok (), lines) := by
  induction lines with
  | nil => intro k; rfl
  | cons l rest ih =>
      intro k
      rw [List.map_cons, drain_loop, hsend k, ih (k + 1)]

theorem drain_loop_first_error (sendFail : Nat → Option BErr)
    (hsend : ∀ k, sendFail k = none) (pre : List (List Char)) (e : BErr)
    (post : List (Except BErr (List Char))) :
    ∀ k, drain_loop sendFail (pre.map .ok ++ .error e :: post) k = (.error e, pre) := by
  induction pre with
  | nil => intro k; rfl
  | cons l rest ih =>
      intro k
      rw [List.map_cons, List.cons_append, drain_loop, hsend k, ih (k + 1)]

/-- C1 (confirmed).  With no copy-stream send failure: every Ok line is
forwarded in order; on the first Err the copy stream is aborted with the
error's display text and that error is returned; on closure without error
the stream is finished and the server-reported count returned; and the
spooler result observed after the drain loop never changes the returned
value. -/
theorem c1_load_data_drain (msgs : List (Except BErr (List Char)))
    (sendFail : Nat → Option BErr) (finishRes : Except BErr Nat)
    (abortRes : Option BErr) (spool1 spool2 : Option (List Char)) (rc : Nat)
    (hsend : ∀ k, sendFail k = none) :
    (∀ lines, msgs = lines.map .ok → finishRes = .ok rc →
      load_data msgs sendFail finishRes abortRes spool1
        = ⟨.ok rc, ⟨lines, true, none⟩,
            (load_data msgs sendFail finishRes abortRes spool1).log⟩) ∧
    (∀ pre e post, msgs = pre.map .ok ++ .error e :: post →
      load_data msgs sendFail finishRes abortRes spool1
        = ⟨(abortRes.elim (.error e) .error),
            ⟨pre, false, some (BErr.display e)⟩,
            (load_data msgs sendFail finishRes abortRes spool1).log⟩) ∧
    (load_data msgs sendFail finishRes abortRes spool1).result
      = (load_data msgs sendFail finishRes abortRes spool2).result := by
  refine ⟨?_, ?_, ?_⟩
  · intro lines hmsgs hfin
    subst hmsgs hfin
    rw [load_data.eq_def, drain_loop_all_ok sendFail hsend lines 0]
  · intro pre e post hmsgs
    subst hmsgs
    rw [load_data.eq_def, drain_loop_first_error sendFail hsend pre e post 0]
    cases abortRes <;> rfl
  · rw [load_data.eq_def, load_data.eq_def]
    rcases drain_loop sendFail msgs 0 with ⟨res, sent⟩
    cases res with
    | ok u => cases finishRes <;> rfl
    | error e => cases abortRes <;> rfl

/-- C1 witness: the theorem applied to a channel carrying one Ok line then
an error, and to an all-Ok channel, with differing spooler results. -/
theorem c1_witness :
    load_data [.ok (String.toList "a,b\n"),
        .error (.generic (String.toList "boom"))]
        (fun _ => none) (.ok 7) none (some (String.toList "late"))
      = ⟨.error (.generic (String.toList "boom")),
          ⟨[String.toList "a,b\n"], false,
            some (BErr.display (.generic (String.toList "boom")))⟩,
          String.toList "SendError\nlate"⟩ ∧
    load_data [.ok (String.toList "x\n")] (fun _ => none) (.ok 3) none none
      = ⟨.ok 3, ⟨[String.toList "x\n"], true, none⟩,
          String.toList "Finished spool handle successfully"⟩ ∧
    (load_data [.ok (String.toList "x\n")] (fun _ => none) (.ok 3) none
        (some (String.toList "late"))).result
      = (load_data [.ok (String.toList "x\n")] (fun _ => none) (.ok 3) none
          none).result := by
  refine ⟨?_, ?_, ?_⟩
  · have h := (c1_load_data_drain
      [.ok (String.toList "a,b\n"), .error (.generic (String.toList "boom"))]
      (fun _ => none) (.ok 7) none (some (String.toList "late")) none 7
      (fun _ => rfl)).2.1 [String.toList "a,b\n"]
      (.generic (String.toList "boom")) [] rfl
    rw [h]
    rfl
  · have h := (c1_load_data_drain [.ok (String.toList "x\n")]
      (fun _ => none) (.ok 3) none none none 3
      (fun _ => rfl)).1 [String.toList "x\n"] rfl rfl
    rw [h]
    rfl
  · exact (c1_load_data_drain [.ok (String.toList "x\n")]
      (fun _ => none) (.ok 3) none (some (String.toList "late"))
      none 3 (fun _ => rfl)).2.2

/- ### REST pagination (src/bulk_loading/arcgis/metadata.rs lines 205-433) -/

/-- Model of `ArcGisRestMetadata::scrape_count` (metadata.rs lines
426-433). -/
def scrape_count (max_record_count : Int) : Int :=
  if max_record_count ≤ 10000 then max_record_count else 10000

/-- The observable content of one emitted query URL: the OID window bounds
of the where clause in OID mode, or the offset parameters in pagination
mode.  URL assembly itself (`Url::parse_with_params`) is not modelled; it
cannot fail on the loader's own URLs. -/
inductive RestQuery where
  | oidWindow (lowerBound upperBound : Int)
  | page (resultOffset resultRecordCount : Int)
deriving DecidableEq, Repr

/-- Model of `QueryIterator` (metadata.rs lines 205-225), keeping the
fields that evolve or feed the emitted query. -/
inductive QueryIterator where
  | oid (min_oid scrape_count remaining_records_count query_index : Int)
  | pagination (scrape_count remaining_records_count query_index : Int)
deriving DecidableEq, Repr

/-- Model of `Iterator::next for QueryIterator` (metadata.rs lines
344-395): emit nothing once the remaining count is at most 0; otherwise
emit the window `[min + i*c, min + i*c + c - 1]` (OID mode) or the offset
pair `(i*c, c)` (pagination mode), then increment the query index and
subtract the scrape count from the remaining count. -/
def QueryIterator.next : QueryIterator → Option RestQuery × QueryIterator
  | .oid m c r i =>
      if r ≤ 0 then (none, .oid m c r i)
      else
        ((some (.oidWindow (m + i * c) (m + i * c + c - 1))),
          .oid m c (r - c) (i + 1))
  | .pagination c r i =>
      if r ≤ 0 then (none, .pagination c r i)
      else (some (.page (i * c) c), .pagination c (r - c) (i + 1))

/-- Collect the queries emitted by the iterator, with enough fuel. -/
def QueryIterator.emit : Nat → QueryIterator → List RestQuery
  | 0, _ => []
  | fuel + 1, s =>
      match s.next with
      | (none, _) => []
      | (some q, s') => q :: QueryIterator.emit fuel s'

/-- Ceiling division on naturals, the query count the spec predicts. -/
def ceilDiv (n c : Nat) : Nat := (n + c - 1) / c

theorem ceilDiv_zero (c : Nat) (hc : 0 < c) : ceilDiv 0 c = 0 := by
  rw [ceilDiv]
  exact Nat.div_eq_of_lt (by omega)

theorem ceilDiv_rec (n c : Nat) (hc : 0 < c) (hn : 0 < n) :
    ceilDiv n c = ceilDiv (n - c) c + 1 := by
  by_cases hle : n ≤ c
  · have h1 : n - c = 0 := by omega
    rw [h1, ceilDiv_zero c hc, ceilDiv]
    have hlo : 1 ≤ (n + c - 1) / c := (Nat.le_div_iff_mul_le hc).mpr (by omega)
    have hhi : (n + c - 1) / c < 2 := (Nat.div_lt_iff_lt_mul hc).mpr (by omega)
    omega
  · rw [ceilDiv, ceilDiv]
    have h2 : n + c - 1 = (n - c + c - 1) + c := by omega
    rw [h2, Nat.add_div_right _ hc]

theorem emit_oid_spec (fuel : Nat) : ∀ (m c r i : Int), 0 < c →
    r ≤ (fuel : Int) * c →
    QueryIterator.emit fuel (.oid m c r i)
      = (List.range (ceilDiv r.toNat c.toNat)).map
          (fun (j : Nat) => RestQuery.oidWindow (m + (i + (j : Int)) * c)
            (m + (i + (j : Int)) * c + c - 1)) := by
  induction fuel with
  | zero =>
      intro m c r i hc hr
      have : r.toNat = 0 := by
        simp at hr
        omega
      rw [this, ceilDiv_zero c.toNat (by omega), List.range_zero, List.map_nil,
        QueryIterator.emit]
  | succ fuel ih =>
      intro m c r i hc hr
      by_cases hr0 : r ≤ 0
      · have : r.toNat = 0 := by omega
        rw [this, ceilDiv_zero c.toNat (by omega), List.range_zero, List.map_nil,
          QueryIterator.emit, QueryIterator.next, if_pos hr0]
      · rw [QueryIterator.emit, QueryIterator.next, if_neg hr0]
        have hrc : r - c ≤ (fuel : Int) * c := by
          have : ((fuel : Int) + 1) * c = (fuel : Int) * c + c := by ring
          push_cast at hr
          omega
        dsimp only
        rw [ih m c (r - c) (i + 1) hc hrc]
        have hcount : ceilDiv r.toNat c.toNat = ceilDiv (r - c).toNat c.toNat + 1 := by
          have h1 : (r - c).toNat = r.toNat - c.toNat := by omega
          rw [h1]
          exact ceilDiv_rec r.toNat c.toNat (by omega) (by omega)
        rw [hcount, List.range_succ_eq_map, List.map_cons, List.map_map]
        congr 1
        · rw [Nat.cast_zero, add_zero]
        · apply List.map_congr_left
          intro a _
          simp only [Function.comp_apply]
          have : i + 1 + (a : Int) = i + ((a : Int) + 1) := by ring
          rw [this]
          push_cast
          ring_nf

theorem emit_pagination_spec (fuel : Nat) : ∀ (c r i : Int), 0 < c →
    r ≤ (fuel : Int) * c →
    QueryIterator.emit fuel (.pagination c r i)
      = (List.range (ceilDiv r.toNat c.toNat)).map
          (fun (j : Nat) => RestQuery.page ((i + (j : Int)) * c) c) := by
  induction fuel with
  | zero =>
      intro c r i hc hr
      have : r.toNat = 0 := by
        simp at hr
        omega
      rw [this, ceilDiv_zero c.toNat (by omega), List.range_zero, List.map_nil,
        QueryIterator.emit]
  | succ fuel ih =>
      intro c r i hc hr
      by_cases hr0 : r ≤ 0
      · have : r.toNat = 0 := by omega
        rw [this, ceilDiv_zero c.toNat (by omega), List.range_zero, List.map_nil,
          QueryIterator.emit, QueryIterator.next, if_pos hr0]
      · rw [QueryIterator.emit, QueryIterator.next, if_neg hr0]
        have hrc : r - c ≤ (fuel : Int) * c := by
          have : ((fuel : Int) + 1) * c = (fuel : Int) * c + c := by ring
          push_cast at hr
          omega
        dsimp only
        rw [ih c (r - c) (i + 1) hc hrc]
        have hcount : ceilDiv r.toNat c.toNat = ceilDiv (r - c).toNat c.toNat + 1 := by
          have h1 : (r - c).toNat = r.toNat - c.toNat := by omega
          rw [h1]
          exact ceilDiv_rec r.toNat c.toNat (by omega) (by omega)
        rw [hcount, List.range_succ_eq_map, List.map_cons, List.map_map]
        congr 1
        · rw [Nat.cast_zero, add_zero]
        · apply List.map_congr_left
          intro a _
          simp only [Function.comp_apply]
          have : i + 1 + (a : Int) = i + ((a : Int) + 1) := by ring
          rw [this]
          push_cast
          ring_nf

theorem scrape_count_eq_min (M : Int) : scrape_count M = min M 10000 := by
  rw [scrape_count]
  split
  · next h => exact (min_eq_left h).symm
  · next h => exact (min_eq_right (by omega)).symm

theorem scrape_count_pos (M : Int) (hM : 0 < M) : 0 < scrape_count M := by
  rw [scrape_count]
  split <;> omega

theorem emit_fuel_enough (N c : Int) (hN : 0 < N) (hc : 0 < c) :
    N ≤ (N.toNat : Int) * c := by
  have h1 : (N.toNat : Int) = N := Int.toNat_of_nonneg (by omega)
  nlinarith

/-- C2 (confirmed, under the implicit assumptions N > 0 and M > 0 the claim
needs to be well formed).  The paginator uses chunk size
c = min(maxRecordCount, 10000); both modes emit exactly ceil(N/c) queries;
in OID mode the i-th query window is [min + i*c, min + (i+1)*c - 1], the
windows are consecutive, and they tile the covered range starting at min
without overlap (every covered point lies in exactly one window). -/
theorem c2_rest_pagination (N M minOid : Int) (hN : 0 < N) (hM : 0 < M) :
    scrape_count M = min M 10000 ∧
    (QueryIterator.emit N.toNat
        (.oid minOid (scrape_count M) N 0)).length
      = ceilDiv N.toNat (scrape_count M).toNat ∧
    (QueryIterator.emit N.toNat
        (.pagination (scrape_count M) N 0)).length
      = ceilDiv N.toNat (scrape_count M).toNat ∧
    (∀ j : Nat, j < (QueryIterator.emit N.toNat
        (.oid minOid (scrape_count M) N 0)).length →
      (QueryIterator.emit N.toNat (.oid minOid (scrape_count M) N 0)).get? j
        = some (.oidWindow (minOid + (j : Int) * scrape_count M)
            (minOid + ((j : Int) + 1) * scrape_count M - 1))) ∧
    (∀ j lo1 hi1 lo2 hi2,
      (QueryIterator.emit N.toNat (.oid minOid (scrape_count M) N 0)).get? j
          = some (.oidWindow lo1 hi1) →
      (QueryIterator.emit N.toNat (.oid minOid (scrape_count M) N 0)).get? (j + 1)
          = some (.oidWindow lo2 hi2) →
      lo2 = hi1 + 1) ∧
    (∀ x : Int, minOid ≤ x →
      x ≤ minOid + ((QueryIterator.emit N.toNat
          (.oid minOid (scrape_count M) N 0)).length : Int) * scrape_count M - 1 →
      ∃! j : Nat, j < (QueryIterator.emit N.toNat
          (.oid minOid (scrape_count M) N 0)).length ∧
        minOid + (j : Int) * scrape_count M ≤ x ∧
        x ≤ minOid + ((j : Int) + 1) * scrape_count M - 1) := by
  have hc : 0 < scrape_count M := scrape_count_pos M hM
  have hfuel : N ≤ (N.toNat : Int) * scrape_count M :=
    emit_fuel_enough N (scrape_count M) hN hc
  have hemit := emit_oid_spec N.toNat minOid (scrape_count M) N 0 hc hfuel
  have hpage := emit_pagination_spec N.toNat (scrape_count M) N 0 hc hfuel
  have hlen : (QueryIterator.emit N.toNat
      (.oid minOid (scrape_count M) N 0)).length
        = ceilDiv N.toNat (scrape_count M).toNat := by
    rw [hemit, List.length_map, List.length_range]
  have hget : ∀ j : Nat, j < (QueryIterator.emit N.toNat
      (.oid minOid (scrape_count M) N 0)).length →
      (QueryIterator.emit N.toNat (.oid minOid (scrape_count M) N 0)).get? j
        = some (.oidWindow (minOid + (j : Int) * scrape_count M)
            (minOid + ((j : Int) + 1) * scrape_count M - 1)) := by
    intro j hj
    rw [hemit] at hj ⊢
    rw [List.length_map, List.length_range] at hj
    rw [List.get?_map, List.get?_range hj]
    have harith : minOid + (0 + (j : Int)) * scrape_count M + scrape_count M - 1
        = minOid + ((j : Int) + 1) * scrape_count M - 1 := by ring
    simp only [Option.map_some']
    rw [harith, zero_add]
  refine ⟨scrape_count_eq_min M, hlen, ?_, hget, ?_, ?_⟩
  · rw [hpage, List.length_map, List.length_range]
  · intro j lo1 hi1 lo2 hi2 h1 h2
    have hj1 : j + 1 < (QueryIterator.emit N.toNat
        (.oid minOid (scrape_count M) N 0)).length := by
      by_contra hcon
      rw [List.get?_eq_none.mpr (by omega)] at h2
      cases h2
    have hj : j < (QueryIterator.emit N.toNat
        (.oid minOid (scrape_count M) N 0)).length := by omega
    rw [hget j hj] at h1
    rw [hget (j + 1) hj1] at h2
    have e1 : hi1 = minOid + ((j : Int) + 1) * scrape_count M - 1 := by
      cases h1
      rfl
    have e2 : lo2 = minOid + ((j : Int) + 1) * scrape_count M := by
      cases h2
      push_cast
      ring
    rw [e1, e2]
    ring
  · intro x hx1 hx2
    set len := (QueryIterator.emit N.toNat
      (.oid minOid (scrape_count M) N 0)).length with hlendef
    set c := scrape_count M with hcdef
    have hcc : ((c.toNat : Int)) = c := Int.toNat_of_nonneg (by omega)
    have hccpos : 0 < c.toNat := by omega
    have hd : ((x - minOid).toNat : Int) = x - minOid := Int.toNat_of_nonneg (by omega)
    set d := (x - minOid).toNat with hddef
    set j := d / c.toNat with hjdef
    have hdlt : d < len * c.toNat := by
      have h1 : (d : Int) < (len : Int) * ((c.toNat : Int)) := by
        rw [hcc]
        linarith
      exact_mod_cast h1
    have hjlen : j < len := Nat.div_lt_iff_lt_mul hccpos |>.mpr hdlt
    have hlow : j * c.toNat ≤ d := Nat.div_mul_le_self d c.toNat
    have hhigh : d < j * c.toNat + c.toNat := by
      have hmod := Nat.div_add_mod d c.toNat
      have hlt := Nat.mod_lt d hccpos
      rw [Nat.mul_comm, ← hjdef] at hmod
      omega
    have hlowInt : minOid + (j : Int) * c ≤ x := by
      have h1 : ((j * c.toNat : Nat) : Int) ≤ (d : Int) := by exact_mod_cast hlow
      push_cast at h1
      rw [hcc] at h1
      linarith
    have hhighInt : x ≤ minOid + ((j : Int) + 1) * c - 1 := by
      have h1 : (d : Int) < ((j * c.toNat + c.toNat : Nat) : Int) := by
        exact_mod_cast hhigh
      push_cast at h1
      rw [hcc] at h1
      have hexp : ((j : Int) + 1) * c = (j : Int) * c + c := by ring
      linarith
    refine ⟨j, ⟨hjlen, hlowInt, hhighInt⟩, ?_⟩
    intro y hy
    obtain ⟨hylen, hylow, hyhigh⟩ := hy
    have hy1 : y * c.toNat ≤ d := by
      have h1 : (y : Int) * c ≤ (d : Int) := by linarith
      have h2 : ((y * c.toNat : Nat) : Int) ≤ (d : Int) := by
        push_cast
        rw [hcc]
        exact h1
      exact_mod_cast h2
    have hy2 : d < (y + 1) * c.toNat := by
      have hexp : ((y : Int) + 1) * c = (y : Int) * c + c := by ring
      have h1 : (d : Int) < ((y : Int) + 1) * c := by linarith
      have h2 : (d : Int) < (((y + 1) * c.toNat : Nat) : Int) := by
        push_cast
        rw [hcc]
        push_cast at h1
        linarith
      exact_mod_cast h2
    rw [hjdef]
    exact (Nat.div_eq_of_lt_le hy1 hy2).symm

/-- C2 witness: the theorem applied to a service with 5 records,
maxRecordCount 2 and minimum OID 10: chunk 2, three OID windows. -/
theorem c2_witness :
    scrape_count 2 = min 2 10000 ∧
      (QueryIterator.emit (Int.toNat 5)
          (.oid 10 (scrape_count 2) 5 0)).length
        = ceilDiv (Int.toNat 5) (scrape_count 2).toNat ∧
      (QueryIterator.emit (Int.toNat 5) (.oid 10 (scrape_count 2) 5 0)).get? 1
        = some (.oidWindow 12 13) := by
  have h := c2_rest_pagination 5 2 10 (by omega) (by omega)
  refine ⟨h.1, h.2.1, ?_⟩
  have hw := h.2.2.2.1 1 (by decide)
  rw [hw]
  decide

/- ### Delimited schema inference (src/bulk_loading/delimited.rs lines
     67-83) -/

/-- Model of `Result`-collecting over an iterator
(`collect::<BulkDataResult<_>>()`): stop at the first error. -/
def mapExcept {α β : Type} (f : α → Except BErr β) : List α → Except BErr (List β)
  | [] => .ok []
  | a :: rest =>
      match f a with
      | .error e => .error e
      | .ok b =>
          match mapExcept f rest with
          | .error e => .error e
          | .ok bs => .ok (b :: bs)

/-- Model of `str::trim_matches('\"')`: remove every leading and trailing
occurrence of the character. -/
def trimMatches (c : Char) (l : List Char) : List Char :=
  ((l.dropWhile (fun x => x = c)).reverse.dropWhile (fun x => x = c)).reverse

/-- Claim-side definition (from the spec's words): the file stem, the file
name with its extension removed, with Rust `Path::file_stem` semantics
(split at the last dot; a dot that starts the name does not count). -/
def file_stem (name : List Char) : List Char :=
  match (name.reverse.dropWhile (fun c => c ≠ '.')) with
  | [] => name
  | _ :: restRev => if restRev = [] then name else restRev.reverse

/-- Model of `DelimitedSchemaParser::schema` (delimited.rs lines 67-83):
the table name is the file name of the path, the columns are the tokens of
the first line split on the delimiter, trimmed of surrounding quotes,
sanitized, and typed Text.  (The revision referenced also passes the
column index to `ColumnMetadata::new`; the index does not affect the name
or type.) -/
def delimited_schema (file_name : List Char) (delimiter : Char)
    (header_line : List Char) : Except BErr Schema :=
  match mapExcept
      (fun tok => ColumnMetadata.new (trimMatches '"' tok) ColumnType.Text)
      (header_line.splitOn delimiter) with
  | .error e => .error e
  | .ok columns => Schema.new file_name columns

theorem mapExcept_ok_length {α β : Type} (f : α → Except BErr β) :
    ∀ (l : List α) (out : List β), mapExcept f l = .ok out → out.length = l.length := by
  intro l
  induction l with
  | nil =>
      intro out h
      cases h
      rfl
  | cons a rest ih =>
      intro out h
      rw [mapExcept] at h
      rcases hfa : f a with e | b <;> rw [hfa] at h
      · cases h
      · rcases hrest : mapExcept f rest with e | bs <;> rw [hrest] at h
        · cases h
        · cases h
          rw [List.length_cons, List.length_cons, ih bs hrest]

theorem mapExcept_ok_get {α β : Type} (f : α → Except BErr β) :
    ∀ (l : List α) (out : List β), mapExcept f l = .ok out →
      ∀ (i : Nat) (a : α), l.get? i = some a →
        ∃ b, out.get? i = some b ∧ f a = .ok b := by
  intro l
  induction l with
  | nil =>
      intro out _ i a ha
      rw [List.get?_eq_none.mpr (by simp)] at ha
      cases ha
  | cons x rest ih =>
      intro out h i a ha
      rw [mapExcept] at h
      rcases hfa : f x with e | b <;> rw [hfa] at h
      · cases h
      · rcases hrest : mapExcept f rest with e | bs <;> rw [hrest] at h
        · cases h
        · cases h
          cases i with
          | zero =>
              rw [List.get?_cons_zero] at ha
              cases ha
              exact ⟨b, rfl, hfa⟩
          | succ n =>
              rw [List.get?_cons_succ] at ha
              exact ih bs hrest n a ha

theorem ColumnMetadata.new_ok_type (name : List Char) (t : ColumnType)
    (cm : ColumnMetadata) (h : ColumnMetadata.new name t = .ok cm) :
    cm.column_type = t := by
  rw [ColumnMetadata.new] at h
  split at h
  · cases h
    rfl
  · split at h
    · cases h
      rfl
    · cases h

theorem Schema.new_ok (tn : List Char) (cols : List ColumnMetadata) (sch : Schema)
    (h : Schema.new tn cols = .ok sch) :
    sch.columns = cols ∧
      ((sql_name_match tn = true ∧ sch.table_name = toLowerList tn) ∨
        (sql_name_match tn = false ∧ clean_sql_name tn = some sch.table_name)) := by
  rw [Schema.new] at h
  split at h
  · next hfast =>
    cases h
    exact ⟨rfl, Or.inl ⟨hfast, rfl⟩⟩
  · next hfast =>
    rcases hc : clean_sql_name tn with _ | out <;> rw [hc] at h
    · cases h
    · cases h
      exact ⟨rfl, Or.inr ⟨Bool.eq_false_iff.mpr hfast, rfl⟩⟩

/-- C8 (corrected).  The table name is the sanitizer applied to the whole
file name, not to the file stem: sanitization strips from the first
dot-suffix, which coincides with stem removal for ordinary names but not
always (for example "ab..csv").  The column names are the sanitized
trimmed tokens, not the raw trimmed tokens.  Amended claim: for every
delimited source on which schema inference succeeds, the table name is
the sanitized file name (fast path or clean_sql_name), and the columns are
exactly the header tokens split on the delimiter, each stripped of
surrounding double quotes and then sanitized, all typed Text. -/
theorem c8_delimited_schema (file_name : List Char) (delimiter : Char)
    (header_line : List Char) (sch : Schema)
    (h : delimited_schema file_name delimiter header_line = .ok sch) :
    ((sql_name_match file_name = true ∧ sch.table_name = toLowerList file_name) ∨
      (sql_name_match file_name = false ∧
        clean_sql_name file_name = some sch.table_name)) ∧
    sch.columns.length = (header_line.splitOn delimiter).length ∧
    (∀ i : Nat, ∀ tok, (header_line.splitOn delimiter).get? i = some tok →
      ∃ cm, sch.columns.get? i = some cm ∧
        ColumnMetadata.new (trimMatches '"' tok) ColumnType.Text = .ok cm ∧
        cm.column_type = ColumnType.Text) := by
  rw [delimited_schema] at h
  rcases hm : mapExcept (fun tok =>
      ColumnMetadata.new (trimMatches '"' tok) ColumnType.Text)
      (header_line.splitOn delimiter) with e | columns <;> rw [hm] at h
  · cases h
  · obtain ⟨hcols, hname⟩ := Schema.new_ok file_name columns sch h
    refine ⟨hname, ?_, ?_⟩
    · rw [hcols]
      exact mapExcept_ok_length _ _ _ hm
    · intro i tok htok
      obtain ⟨cm, hget, hnew⟩ := mapExcept_ok_get _ _ _ hm i tok htok
      exact ⟨cm, by rw [hcols]; exact hget, hnew,
        ColumnMetadata.new_ok_type _ _ _ hnew⟩

/-- C8 counterexample: for the file "ab..csv" with header "A,B", schema
inference succeeds with table name "ab" and column names "a", "b", while
the claim predicts the sanitized file stem "ab." (which sanitizes to
"ab_") and the raw trimmed tokens "A", "B". -/
theorem c8_counterexample :
    delimited_schema (String.toList "ab..csv") ',' (String.toList "A,B")
        = .ok ⟨String.toList "ab",
            [⟨String.toList "a", .Text⟩, ⟨String.toList "b", .Text⟩]⟩ ∧
      file_stem (String.toList "ab..csv") = String.toList "ab." ∧
      Schema.new (file_stem (String.toList "ab..csv")) []
        = .ok ⟨String.toList "ab_", []⟩ ∧
      String.toList "ab" ≠ String.toList "ab_" ∧
      (String.toList "A,B").splitOn ','
        = [String.toList "A", String.toList "B"] ∧
      String.toList "a" ≠ trimMatches '"' (String.toList "A") :=
  ⟨by decide, by decide, by decide, by decide, by decide, by decide⟩

/-- C8 witness: the amended statement applied to the file "data.csv" with
header "Name,\"Val\"". -/
theorem c8_witness :
    (sql_name_match (String.toList "data.csv") = false ∧
      clean_sql_name (String.toList "data.csv") = some (String.toList "data")) ∧
    ((String.toList "Name,\"Val\"").splitOn ',').length = 2 ∧
    ColumnMetadata.new (trimMatches '"' (String.toList "\"Val\"")) ColumnType.Text
      = .ok ⟨String.toList "val", .Text⟩ := by
  have h := c8_delimited_schema (String.toList "data.csv") ','
    (String.toList "Name,\"Val\"")
    ⟨String.toList "data",
      [⟨String.toList "name", .Text⟩, ⟨String.toList "val", .Text⟩]⟩
    (by decide)
  refine ⟨?_, ?_, ?_⟩
  · rcases h.1 with hfast | hslow
    · exact absurd hfast.1 (by decide)
    · exact hslow
  · rw [← h.2.1]
    rfl
  · obtain ⟨cm, hget, hnew, _⟩ := h.2.2 1 (String.toList "\"Val\"") (by decide)
    have : cm = ⟨String.toList "val", .Text⟩ := by
      rw [show (Schema.mk (String.toList "data")
        [⟨String.toList "name", .Text⟩, ⟨String.toList "val", .Text⟩]).columns
          = [⟨String.toList "name", .Text⟩, ⟨String.toList "val", .Text⟩] from rfl] at hget
      cases hget
      rfl
    rw [← this]
    exact hnew

/- ### Spreadsheet spooling (src/bulk_loading/excel.rs lines 27-44,
     77-128) -/

/-- Model of one calamine cell as the spooler observes it: a string, a
datetime (whose `as_datetime` conversion may fail, carrying the formatted
text on success and the display text for the failure message), a cell
error with its display text, an empty cell, or any other value rendered
by its display text. -/
inductive ExcelValue where
  | str (s : List Char)
  | datetime (formatted : Option (List Char)) (disp : List Char)
  | cellError (e : List Char)
  | empty
  | other (disp : List Char)
deriving DecidableEq, Repr

/-- Model of `s.replace("_x000d_", "\n")`: left-to-right, non-overlapping. -/
def replace_x000d : List Char → List Char
  | '_' :: 'x' :: '0' :: '0' :: '0' :: 'd' :: '_' :: rest => '\n' :: replace_x000d rest
  | c :: rest => c :: replace_x000d rest
  | [] => []

/-- Model of `s.replace("_x000a_", "\r")`: left-to-right, non-overlapping. -/
def replace_x000a : List Char → List Char
  | '_' :: 'x' :: '0' :: '0' :: '0' :: 'a' :: '_' :: rest => '\r' :: replace_x000a rest
  | c :: rest => c :: replace_x000a rest
  | [] => []

/-- Model of `map_excel_value` (excel.rs lines 27-44). -/
def map_excel_value : ExcelValue → Except BErr (List Char)
  | .str s => .ok (replace_x000a (replace_x000d s))
  | .datetime (some f) _ => .ok f
  | .datetime none disp =>
      .error (.generic (String.toList
        "Cell error. Should be datetime but found something else. " ++ disp))
  | .cellError e => .error (.generic (String.toList "Cell error, " ++ e))
  | .empty => .ok []
  | .other disp => .ok disp

/-- Model of `csv_values_to_string` (load.rs lines 54-61), identical in
effect to `csv_iter_to_string`. -/
def csv_values_to_string (cells : List (List Char)) : List Char :=
  List.intercalate [','] (cells.map escape_csv_string) ++ ['\n']

/-- The row-level error message the spooler sends when a row has a failing
cell (excel.rs lines 100-108). -/
def excelRowErrMsg (rowNum : Nat) : List Char :=
  String.toList "Excel row " ++ String.toList (Nat.repr (rowNum + 1))
    ++ String.toList " has cells that contain errors"

/-- The error message for a row whose width differs from the header's
(excel.rs lines 109-119). -/
def excelRowLenMsg (rowNum vals expected : Nat) : List Char :=
  String.toList "Excel row " ++ String.toList (Nat.repr (rowNum + 1))
    ++ String.toList " has " ++ String.toList (Nat.repr vals)
    ++ String.toList " values but expected " ++ String.toList (Nat.repr expected)

/-- Model of the data-row loop of `ExcelDataParser::spool_records`
(excel.rs lines 95-127): `rowNum` is the 0-based index of the current row
among the data rows.  The returned list is the sequence of messages sent
on the channel. -/
def excel_spool_go (headerSize : Nat) :
    List (List ExcelValue) → Nat → List (Except BErr (List Char))
  | [], _ => []
  | row :: rest, rowNum =>
      match mapExcept map_excel_value row with
      | .error _ => [.error (.generic (excelRowErrMsg rowNum))]
      | .ok vals =>
          if vals.length ≠ headerSize then
            [.error (.generic (excelRowLenMsg rowNum vals.length headerSize))]
          else
            .ok (csv_values_to_string vals) :: excel_spool_go headerSize rest (rowNum + 1)

/-- Model of `ExcelDataParser::spool_records` (excel.rs lines 77-128): the
sheet is its list of rows; a missing header row sends a single error. -/
def excel_spool_records (sheet : List (List ExcelValue))
    (filePathDisp : List Char) : List (Except BErr (List Char)) :=
  match sheet with
  | [] => [.error (.generic (String.toList
      "Could not find a header row for excel file " ++ filePathDisp))]
  | header :: rows => excel_spool_go header.length rows 0

theorem mapExcept_error_of_mem {α β : Type} (f : α → Except BErr β)
    (a : α) (e : BErr) (hfa : f a = .error e) :
    ∀ l : List α, a ∈ l → ∃ e', mapExcept f l = .error e' := by
  intro l
  induction l with
  | nil => intro h; cases h
  | cons x rest ih =>
      intro hmem
      rw [mapExcept]
      rcases hfx : f x with e2 | b
      · exact ⟨e2, rfl⟩
      · rcases List.mem_cons.mp hmem with h1 | h2
        · rw [← h1, hfa] at hfx
          cases hfx
        · obtain ⟨e', he'⟩ := ih h2
          rw [he']
          exact ⟨e', rfl⟩

theorem excel_spool_go_cell_error (headerSize : Nat) :
    ∀ (pre : List (List ExcelValue)) (rowNum : Nat) (row : List ExcelValue)
      (post : List (List ExcelValue)) (e : List Char),
      (∀ r ∈ pre, ∃ vals, mapExcept map_excel_value r = .ok vals ∧
        vals.length = headerSize) →
      .cellError e ∈ row →
      ∃ oks : List (Except BErr (List Char)),
        excel_spool_go headerSize (pre ++ row :: post) rowNum
            = oks ++ [.error (.generic (excelRowErrMsg (rowNum + pre.length)))] ∧
          oks.length = pre.length ∧ ∀ m ∈ oks, ∃ l, m = .ok l := by
  intro pre
  induction pre with
  | nil =>
      intro rowNum row post e _ hrow
      obtain ⟨e', he'⟩ := mapExcept_error_of_mem map_excel_value
        (.cellError e) (.generic (String.toList "Cell error, " ++ e)) rfl row hrow
      refine ⟨[], ?_, rfl, by intro m hm; cases hm⟩
      rw [List.nil_append, excel_spool_go, he']
      simp
  | cons r rest ih =>
      intro rowNum row post e hpre hrow
      obtain ⟨vals, hvals, hlen⟩ := hpre r (List.mem_cons_self _ _)
      rw [List.cons_append, excel_spool_go, hvals]
      dsimp only
      rw [if_neg (by omega)]
      obtain ⟨oks, hek, hlen2, hok⟩ := ih (rowNum + 1) row post e
        (fun x hx => hpre x (List.mem_cons_of_mem _ hx)) hrow
      refine ⟨.ok (csv_values_to_string vals) :: oks, ?_, ?_, ?_⟩
      · rw [hek, List.cons_append]
        have harith : rowNum + 1 + rest.length = rowNum + (r :: rest).length := by
          rw [List.length_cons]
          omega
        rw [harith]
      · rw [List.length_cons, List.length_cons, hlen2]
      · intro m hm
        rcases List.mem_cons.mp hm with h1 | h2
        · exact ⟨csv_values_to_string vals, h1⟩
        · exact hok m h2

/-- C9 (corrected).  When a data row holds a cell error (after a prefix of
clean rows of the right width), the spooler emits the clean rows, then
exactly one Err, and stops.  But the message of that Err is not the
cell-level "Cell error" message of `map_excel_value`: the spooler discards
the cell-level error and sends the row-level message "Excel row N has
cells that contain errors" naming the 1-based row index.  Cell-level
errors are still propagated as Err values rather than panics. -/
theorem c9_excel_cell_error (header : List ExcelValue)
    (pre : List (List ExcelValue)) (row : List ExcelValue)
    (post : List (List ExcelValue)) (e : List Char) (fp : List Char)
    (hpre : ∀ r ∈ pre, ∃ vals, mapExcept map_excel_value r = .ok vals ∧
      vals.length = header.length)
    (hrow : .cellError e ∈ row) :
    ∃ oks : List (Except BErr (List Char)),
      excel_spool_records (header :: (pre ++ row :: post)) fp
          = oks ++ [.error (.generic (excelRowErrMsg pre.length))] ∧
        oks.length = pre.length ∧ ∀ m ∈ oks, ∃ l, m = .ok l := by
  rw [excel_spool_records]
  obtain ⟨oks, hek, hlen, hok⟩ := excel_spool_go_cell_error header.length pre 0
    row post e hpre hrow
  rw [Nat.zero_add] at hek
  exact ⟨oks, hek, hlen, hok⟩

/-- C9 counterexample: a sheet whose single data row holds the cell error
DIV/0 produces exactly one Err whose message is the row-level message, not
the cell-level "Cell error, ..." message the claim names. -/
theorem c9_counterexample :
    excel_spool_records
        [[.str (String.toList "h")], [.cellError (String.toList "#DIV/0!")]]
        (String.toList "wb.xlsx")
      = [.error (.generic (String.toList "Excel row 1 has cells that contain errors"))] ∧
    map_excel_value (.cellError (String.toList "#DIV/0!"))
      = .error (.generic (String.toList "Cell error, #DIV/0!")) ∧
    String.toList "Excel row 1 has cells that contain errors"
      ≠ String.toList "Cell error, #DIV/0!" :=
  ⟨by decide, by decide, by decide⟩

/-- C9 witness: the amended statement applied to a sheet with a two-column
header, one clean data row and then a row with an error cell. -/
theorem c9_witness :
    ∃ oks : List (Except BErr (List Char)),
      excel_spool_records
          [[.str (String.toList "h"), .str (String.toList "g")],
           [.str (String.toList "x"), .empty],
           [.str (String.toList "y"), .cellError (String.toList "#N/A")]]
          (String.toList "wb.xlsx")
        = oks ++ [.error (.generic (excelRowErrMsg 1))] ∧
      oks.length = 1 ∧ ∀ m ∈ oks, ∃ l, m = .ok l := by
  have h := c9_excel_cell_error
    [.str (String.toList "h"), .str (String.toList "g")]
    [[.str (String.toList "x"), .empty]]
    [.str (String.toList "y"), .cellError (String.toList "#N/A")]
    [] (String.toList "#N/A") (String.toList "wb.xlsx")
    (by
      intro r hr
      rw [List.mem_singleton] at hr
      subst hr
      exact ⟨[String.toList "x", []], by decide, by decide⟩)
    (by decide)
  simpa using h

/- ### GeoJSON schema inference (src/bulk_loading/geo_json.rs lines 16-39,
     73-123) and shapefile schema (src/bulk_loading/shape.rs lines 48-85) -/

/-- The shape of one JSON property value, which is all the type inference
looks at. -/
inductive JsonKind where
  | jnull
  | jbool
  | jnumber
  | jstring
  | jarray
  | jobject
deriving DecidableEq, Repr

/-- Model of `column_type_from_value` (geo_json.rs lines 16-25). -/
def column_type_from_value : JsonKind → Option ColumnType
  | .jnull => none
  | .jbool => some .Boolean
  | .jnumber => some .Number
  | .jstring => some .Text
  | .jarray => some .Json
  | .jobject => some .Json

/-- Model of `Schema::from_iter` (analyze.rs lines 164-172). -/
def schema_from_iter (table_name : List Char)
    (cols : List (List Char × ColumnType)) : Except BErr Schema :=
  match mapExcept (fun p => ColumnMetadata.new p.1 p.2) cols with
  | .error e => .error e
  | .ok cms => Schema.new table_name cms

/-- Model of `collect_columns_into_schema` (geo_json.rs lines 27-39):
unresolved slots default to Text, and a final geometry column is
appended. -/
def collect_columns_into_schema (table_name : List Char)
    (columns : List (List Char × Option ColumnType)) : Except BErr Schema :=
  schema_from_iter table_name
    (columns.map (fun p => (p.1, p.2.getD .Text))
      ++ [(String.toList "geometry", ColumnType.Geometry)])

/-- Model of the inner property loop of `GeoJsonSchemaParser::schema`
(geo_json.rs lines 100-116): walk one feature's properties by index,
filling still-unresolved slots. -/
def geo_json_update (cols : List (List Char × Option ColumnType)) :
    List (List Char × JsonKind) → Nat → Bool →
      Except BErr (List (List Char × Option ColumnType) × Bool)
  | [], _, undef => .ok (cols, undef)
  | (field, value) :: rest, i, undef =>
      match cols.get? i with
      | some (_, some _) => geo_json_update cols rest (i + 1) undef
      | some (name, none) =>
          let typ := column_type_from_value value
          geo_json_update (cols.set i (name, typ)) rest (i + 1) (undef || typ.isNone)
      | none =>
          .error (.generic (String.toList "Found column with index "
            ++ String.toList (Nat.repr i) ++ String.toList " named \"" ++ field
            ++ String.toList "\" that was not found in the first feature"))

/-- Model of the outer feature loop of `GeoJsonSchemaParser::schema`
(geo_json.rs lines 98-121): after each feature, break if no slot is
unresolved, else clear the flag and continue. -/
def geo_json_loop (cols : List (List Char × Option ColumnType)) (undef : Bool) :
    List (List (List Char × JsonKind)) →
      Except BErr (List (List Char × Option ColumnType))
  | [] => .ok cols
  | f :: rest =>
      match geo_json_update cols f 0 undef with
      | .error e => .error e
      | .ok (cols', undef') =>
          if !undef' then .ok cols'
          else geo_json_loop cols' false rest

/-- Model of `GeoJsonSchemaParser::schema` (geo_json.rs lines 73-123): a
stream with no feature yields a schema with an empty column list; else the
first feature seeds the columns and later features are scanned while some
slot is unresolved. -/
def geo_json_schema (table_name : List Char)
    (features : List (List (List Char × JsonKind))) : Except BErr Schema :=
  match features with
  | [] => Schema.new table_name []
  | first :: rest =>
      let cols := first.map (fun p => (p.1, column_type_from_value p.2))
      let undef := cols.any (fun p => p.2.isNone)
      if !undef then collect_columns_into_schema table_name cols
      else
        match geo_json_loop cols undef rest with
        | .error e => .error e
        | .ok cols' => collect_columns_into_schema table_name cols'

/-- The dbase field kinds of the companion DBF table. -/
inductive DbfFieldKind where
  | character
  | numeric
  | logical
  | date
  | dfloat
  | dinteger
  | currency
  | ddatetime
  | ddouble
  | memo
deriving DecidableEq, Repr

/-- Model of `column_type_from_value` for shapefiles (shape.rs lines
48-61). -/
def column_type_from_field : DbfFieldKind → ColumnType
  | .character => .Text
  | .numeric => .Number
  | .logical => .Boolean
  | .date => .Date
  | .dfloat => .Real
  | .dinteger => .Integer
  | .currency => .Money
  | .ddatetime => .Timestamp
  | .ddouble => .DoublePrecision
  | .memo => .Text

/-- Model of `shape::schema` (shape.rs lines 63-85): `fields` are the DBF
field names (already excluding `DeletionFlag` in `fields()`, filtered once
more here as in the source), `record` the first feature's attribute
record.  A final geometry column is pushed before `Schema::new`. -/
def shape_schema (table_name : List Char) (fields : List (List Char))
    (record : List (List Char × DbfFieldKind)) : Except BErr Schema :=
  match mapExcept
      (fun fname =>
        match List.lookup fname record with
        | none =>
            .error (.generic (String.toList "Could not find value for field "
              ++ fname))
        | some k => ColumnMetadata.new fname (column_type_from_field k))
      (fields.filter (fun f => decide (f ≠ String.toList "DeletionFlag"))) with
  | .error e => .error e
  | .ok cols =>
      match ColumnMetadata.new (String.toList "geometry") ColumnType.Geometry with
      | .error e => .error e
      | .ok gm => Schema.new table_name (cols ++ [gm])

theorem mapExcept_ok_append_singleton {α β : Type} (f : α → Except BErr β) :
    ∀ (l : List α) (a : α) (out : List β), mapExcept f (l ++ [a]) = .ok out →
      ∃ o1 b, out = o1 ++ [b] ∧ f a = .ok b := by
  intro l
  induction l with
  | nil =>
      intro a out h
      rw [List.nil_append, mapExcept] at h
      rcases hfa : f a with e | b <;> rw [hfa] at h
      · cases h
      · rw [mapExcept] at h
        cases h
        exact ⟨[], b, rfl, rfl⟩
  | cons x rest ih =>
      intro a out h
      rw [List.cons_append, mapExcept] at h
      rcases hfx : f x with e | b <;> rw [hfx] at h
      · cases h
      · rcases hrest : mapExcept f (rest ++ [a]) with e | bs <;> rw [hrest] at h
        · cases h
        · cases h
          obtain ⟨o1, b2, hout, hfa⟩ := ih a bs hrest
          exact ⟨b :: o1, b2, by rw [hout, List.cons_append], hfa⟩

/-- Sanitizing the name "geometry" with type Geometry. -/
theorem geometry_column_new :
    ColumnMetadata.new (String.toList "geometry") ColumnType.Geometry
      = .ok ⟨String.toList "geometry", .Geometry⟩ := by decide

theorem collect_columns_geometry_last (table_name : List Char)
    (columns : List (List Char × Option ColumnType)) (sch : Schema)
    (h : collect_columns_into_schema table_name columns = .ok sch) :
    sch.columns ≠ [] ∧
      sch.columns.getLast? = some ⟨String.toList "geometry", .Geometry⟩ := by
  rw [collect_columns_into_schema, schema_from_iter] at h
  rcases hm : mapExcept (fun p => ColumnMetadata.new p.1 p.2)
      (columns.map (fun p => (p.1, p.2.getD .Text))
        ++ [(String.toList "geometry", ColumnType.Geometry)]) with e | cms
    <;> rw [hm] at h
  · cases h
  · obtain ⟨o1, b, hout, hfb⟩ := mapExcept_ok_append_singleton _ _ _ _ hm
    have hb : b = ⟨String.toList "geometry", .Geometry⟩ := by
      rw [geometry_column_new] at hfb
      cases hfb
      rfl
    obtain ⟨hcols, _⟩ := Schema.new_ok _ _ _ h
    rw [hcols, hout, hb]
    constructor
    · simp
    · exact List.getLast?_concat _

/-- C7 (corrected).  For a shapefile the schema always ends in the
geometry column; for GeoJSON this holds whenever the stream has at least
one feature, but a stream with no feature yields a schema whose column
list is empty (geo_json.rs line 83), contradicting the claim.  Amended
claim: for every geospatial source on which schema inference succeeds and
which (in the GeoJSON case) contains at least one feature, the column list
is non-empty and its last column is named "geometry" with type
Geometry. -/
theorem c7_geometry_column_last (table_name : List Char)
    (features : List (List (List Char × JsonKind)))
    (fields : List (List Char)) (record : List (List Char × DbfFieldKind))
    (sch sch2 : Schema) :
    (features ≠ [] → geo_json_schema table_name features = .ok sch →
      sch.columns ≠ [] ∧
        sch.columns.getLast? = some ⟨String.toList "geometry", .Geometry⟩) ∧
    (shape_schema table_name fields record = .ok sch2 →
      sch2.columns ≠ [] ∧
        sch2.columns.getLast? = some ⟨String.toList "geometry", .Geometry⟩) := by
  constructor
  · intro hne h
    rcases features with _ | ⟨first, rest⟩
    · exact absurd rfl hne
    · rw [geo_json_schema] at h
      split at h
      · exact collect_columns_geometry_last _ _ _ h
      · rcases hloop : geo_json_loop
            (first.map (fun p => (p.1, column_type_from_value p.2)))
            ((first.map (fun p => (p.1, column_type_from_value p.2))).any
              (fun p => p.2.isNone)) rest with e | cols' <;> rw [hloop] at h
        · cases h
        · exact collect_columns_geometry_last _ _ _ h
  · intro h
    rw [shape_schema] at h
    rcases hm : mapExcept
        (fun fname =>
          match List.lookup fname record with
          | none =>
              .error (.generic (String.toList "Could not find value for field "
                ++ fname))
          | some k => ColumnMetadata.new fname (column_type_from_field k))
        (fields.filter (fun f => decide (f ≠ String.toList "DeletionFlag")))
        with e | cols <;> rw [hm] at h
    · cases h
    · rw [geometry_column_new] at h
      obtain ⟨hcols, _⟩ := Schema.new_ok _ _ _ h
      rw [hcols]
      constructor
      · simp
      · exact List.getLast?_concat _

/-- C7 counterexample: a GeoJSON stream with no feature: schema inference
succeeds and returns an empty column list, so there is no geometry
column. -/
theorem c7_counterexample :
    geo_json_schema (String.toList "empty.geojson") []
        = .ok ⟨String.toList "empty", []⟩ ∧
      (Schema.mk (String.toList "empty") []).columns = [] :=
  ⟨by decide, rfl⟩

/-- C7 witness: the amended statement applied to a one-feature GeoJSON
stream and to a one-field shapefile. -/
theorem c7_witness :
    ((Schema.mk (String.toList "pts")
        [⟨String.toList "name", .Text⟩,
         ⟨String.toList "geometry", .Geometry⟩]).columns ≠ [] ∧
      (Schema.mk (String.toList "pts")
        [⟨String.toList "name", .Text⟩,
         ⟨String.toList "geometry", .Geometry⟩]).columns.getLast?
        = some ⟨String.toList "geometry", .Geometry⟩) ∧
    ((Schema.mk (String.toList "roads")
        [⟨String.toList "id", .Integer⟩,
         ⟨String.toList "geometry", .Geometry⟩]).columns ≠ [] ∧
      (Schema.mk (String.toList "roads")
        [⟨String.toList "id", .Integer⟩,
         ⟨String.toList "geometry", .Geometry⟩]).columns.getLast?
        = some ⟨String.toList "geometry", .Geometry⟩) := by
  constructor
  · exact (c7_geometry_column_last (String.toList "pts.geojson")
      [[(String.toList "name", .jstring)]] [] []
      ⟨String.toList "pts",
        [⟨String.toList "name", .Text⟩, ⟨String.toList "geometry", .Geometry⟩]⟩
      ⟨[], []⟩).1 (by simp) (by decide)
  · exact (c7_geometry_column_last (String.toList "roads.shp") []
      [String.toList "id"] [(String.toList "id", .dinteger)] ⟨[], []⟩
      ⟨String.toList "roads",
        [⟨String.toList "id", .Integer⟩,
         ⟨String.toList "geometry", .Geometry⟩]⟩).2 (by decide)

end Geoflow
